import Mathlib

/-!
Verification development for the incremental 3-D convex hull engine of
GeomAlgoLib (src/geom_algo_lib/convex_hull.cpp).

The C++ source is shallowly embedded below.  Coordinates (C++ `double`) are
modelled as exact rationals `ℚ`; `size_t` is modelled as `Nat`, with the
wrap-around sentinel `(size_t)(-1)` represented by the explicit constant
`UNSET_IDX = 2^64 - 1`.  The header `convex_hull.h` (declaring `vec3`,
`index_pair`, `PLANE_DIST_TOL` and the class interfaces) is not part of the
repository snapshot, so those leaf types are modelled from the spec
(spec.md §3, §4.1, §4.2); every function body present in convex_hull.cpp is
translated from that source.

One systematic representation choice: `vec3::unit()` divides by the real
length `sqrt(len_sq)`, which is irrational over ℚ.  Wherever the source
stores a unit normal `n / ‖n‖` and compares a signed distance against the
tolerance, the embedding stores the unnormalized (but equi-directional)
vector `n` together with its validity flag and performs the algebraically
equivalent comparison obtained by clearing the positive factor `‖n‖`
(`q / ‖n‖ > ε  ↔  0 < q ∧ ε²·‖n‖² < q²` for `ε > 0`).  Each such place is
marked by a comment.  The functions `face_plane_dist` / `face_visible` /
`get_farthest_pt` are additionally embedded verbatim (acting on a face with
an already-stored normal, exactly as the source member functions do).

The `Rat` arithmetic of Batteries is marked irreducible, which blocks
kernel evaluation of concrete instances; it is restored to semireducible
(an elaboration-only change, the kernel ignores reducibility hints).
-/

attribute [local semireducible] Rat.add Rat.mul Rat.sub Rat.inv

/-- The value `(size_t)(-1)` used throughout the source as the "unset"
sentinel for indices and ids. -/
def UNSET_IDX : Nat := 2 ^ 64 - 1

/-- Modelled from the spec (§3, §4.1): 3-D vector of doubles, with a
distinguished invalid ("unset", NaN-encoding) sentinel distinct from every
finite triple; the flag `valid` is false exactly for that sentinel, and
arithmetic propagates invalidity the way NaN does. -/
structure Vec3 where
  x : ℚ
  y : ℚ
  z : ℚ
  valid : Bool
deriving DecidableEq

/-- Modelled from the spec: the `vec3::unset` sentinel ("no vector"). -/
def Vec3.unset : Vec3 := ⟨0, 0, 0, false⟩

/-- Modelled from the spec: `vec3::zero`. -/
def Vec3.zero : Vec3 := ⟨0, 0, 0, true⟩

/-- Modelled from the spec: `vec3::is_valid()` — false exactly for the
unset/NaN sentinel. -/
def Vec3.is_valid (v : Vec3) : Bool := v.valid

/-- Modelled from the spec: componentwise subtraction (`operator-`). -/
def Vec3.sub (a b : Vec3) : Vec3 := ⟨a.x - b.x, a.y - b.y, a.z - b.z, a.valid && b.valid⟩

/-- Modelled from the spec: componentwise addition (`operator+`, `+=`). -/
def Vec3.add (a b : Vec3) : Vec3 := ⟨a.x + b.x, a.y + b.y, a.z + b.z, a.valid && b.valid⟩

/-- Modelled from the spec: dot product (`operator*` on two vectors). -/
def Vec3.dot (a b : Vec3) : ℚ := a.x * b.x + a.y * b.y + a.z * b.z

/-- Modelled from the spec: cross product (`operator^`). -/
def Vec3.cross (a b : Vec3) : Vec3 :=
  ⟨a.y * b.z - a.z * b.y, a.z * b.x - a.x * b.z, a.x * b.y - a.y * b.x, a.valid && b.valid⟩

/-- Modelled from the spec: squared length (`len_sq`). -/
def Vec3.len_sq (v : Vec3) : ℚ := v.x * v.x + v.y * v.y + v.z * v.z

/-- Modelled from the spec: scalar multiple (`operator*` with a double). -/
def Vec3.scale (q : ℚ) (v : Vec3) : Vec3 := ⟨q * v.x, q * v.y, q * v.z, v.valid⟩

/-- Modelled from the spec: scalar division (`operator/=`). -/
def Vec3.divScalar (v : Vec3) (q : ℚ) : Vec3 := ⟨v.x / q, v.y / q, v.z / q, v.valid⟩

/-- Modelled from the spec: negation (`vec3::reverse()`), used by
`hull_face::flip`. -/
def Vec3.reverse (v : Vec3) : Vec3 := ⟨-v.x, -v.y, -v.z, v.valid⟩

/-- Modelled from the spec: `vec3::unit()` returns the invalid sentinel when
the input has zero length.  The true unit vector `v / ‖v‖` is irrational
over ℚ, so the embedding keeps the (equi-directional) unnormalized vector
and every later comparison involving the stored normal is performed in the
equivalent cleared-denominator form (see `face_visible_sq`). -/
def Vec3.unitDir (v : Vec3) : Vec3 :=
  if v.valid = false ∨ (v.x = 0 ∧ v.y = 0 ∧ v.z = 0) then Vec3.unset else v

/-- Modelled from the spec (§3, §4.2): unordered 2-slot index container,
used both as canonical edge key and as per-edge adjacent-face record. -/
structure IndexPair where
  p : Nat
  q : Nat
deriving DecidableEq

/-- Modelled from the spec: `index_pair::contains(v)` — either slot equals `v`. -/
def IndexPair.containsIdx (ip : IndexPair) (v : Nat) : Bool := ip.p == v || ip.q == v

/-- Modelled from the spec: `index_pair::unset(v)` — replace whichever slot
holds `v` with the empty sentinel (no-op when `v` is absent). -/
def IndexPair.unsetIdx (ip : IndexPair) (v : Nat) : IndexPair :=
  if ip.p = v then ⟨UNSET_IDX, ip.q⟩ else if ip.q = v then ⟨ip.p, UNSET_IDX⟩ else ip

/-- Modelled from the spec: `index_pair::add(v)` — place `v` into the first
empty slot; `none` (failure, the non-manifold corruption signal) when both
slots are already occupied. -/
def IndexPair.addIdx (ip : IndexPair) (v : Nat) : Option IndexPair :=
  if ip.p = UNSET_IDX then some ⟨v, ip.q⟩
  else if ip.q = UNSET_IDX then some ⟨ip.p, v⟩
  else none

/-- Modelled from the spec: edge keys are canonicalized order-independently;
two keys are the same edge iff they hold the same unordered pair. -/
def edgeKeyEq (e1 e2 : IndexPair) : Bool :=
  (e1.p == e2.p && e1.q == e2.q) || (e1.p == e2.q && e1.q == e2.p)

/-- Faces: `hull_face` = id, three vertex indices in winding order, cached
normal (convex_hull.cpp lines 5–13; fields from the spec's data model). -/
structure hull_face where
  id : Nat
  a : Nat
  b : Nat
  c : Nat
  normal : Vec3
deriving DecidableEq

/-- The constant `hull_face::unset = hull_face(-1,-1,-1,-1)` (line 3); the
constructor stores `vec3::unset` as the normal (line 11).  The
default-constructed `hull_face()` (lines 5–8) has the same four sentinel
indices and is likewise invalid; both are modelled by this value. -/
def hull_face.unsetFace : hull_face := ⟨UNSET_IDX, UNSET_IDX, UNSET_IDX, UNSET_IDX, Vec3.unset⟩

/-- Source `hull_face::is_valid` (lines 15–18). -/
def hull_face.is_valid (f : hull_face) : Bool :=
  !(f.id == UNSET_IDX) && !(f.a == UNSET_IDX) && !(f.b == UNSET_IDX) && !(f.c == UNSET_IDX)

/-- Source `hull_face::flip` (lines 20–24): swap `b`/`c`, negate normal. -/
def hull_face.flip (f : hull_face) : hull_face :=
  { f with b := f.c, c := f.b, normal := f.normal.reverse }

/-- Source `hull_face::edge` (lines 26–39).  The source throws on an index
other than 0, 1, 2; all call sites pass only 0, 1, 2, and the embedding
returns a sentinel pair on the dead branch. -/
def hull_face.edge (f : hull_face) (edgeIndex : Nat) : IndexPair :=
  match edgeIndex with
  | 0 => ⟨f.a, f.b⟩
  | 1 => ⟨f.b, f.c⟩
  | 2 => ⟨f.c, f.a⟩
  | _ => ⟨UNSET_IDX, UNSET_IDX⟩

/-- Source `hull_face::contains_vertex` (lines 41–44), embedded verbatim:
`vi == -1 && (vi == a || vi == b || vi == c)`. -/
def hull_face.contains_vertex (f : hull_face) (vi : Nat) : Bool :=
  vi == UNSET_IDX && (vi == f.a || vi == f.b || vi == f.c)

/-- Modelled from the spec: the fixed tolerance ε (`PLANE_DIST_TOL`), a
positive constant declared in the missing header. -/
def PLANE_DIST_TOL : ℚ := 1 / 10 ^ 10

/-- Raw indexed access `m_pts[i]` into the coordinate array (in-range at
every defined-behaviour use of the source). -/
def ptAt (pts : List Vec3) (i : Nat) : Vec3 := pts.getD i Vec3.unset

/-- Source `convex_hull::get_pt` (lines 59–62): bounds-checked access,
returning the unset sentinel out of range (`index < 0` is vacuous for
`size_t`). -/
def get_pt (pts : List Vec3) (index : Nat) : Vec3 :=
  if pts.length - 1 < index then Vec3.unset else ptAt pts index

/-- Source `convex_hull::face_plane_dist` (lines 193–196): dot product of
`(pt − m_pts[face.a])` with the face's stored normal. -/
def face_plane_dist (pts : List Vec3) (face : hull_face) (pt : Vec3) : ℚ :=
  Vec3.dot (pt.sub (ptAt pts face.a)) face.normal

/-- Source `convex_hull::face_visible` (lines 188–191): a face with a valid
stored normal is visible from `pt` iff the plane distance strictly exceeds
`PLANE_DIST_TOL`; an invalid normal is never visible. -/
def face_visible (pts : List Vec3) (face : hull_face) (pt : Vec3) : Bool :=
  if face.normal.is_valid then decide (PLANE_DIST_TOL < face_plane_dist pts face pt) else false

/-- Source `convex_hull::face_visible` as used in the state-threaded
pipeline, where the stored normal is the unnormalized cross product `n`
(see `Vec3.unitDir`).  The source test is `(pt − a)·(n/‖n‖) > ε`; with
`q = (pt − a)·n` and `‖n‖ > 0`, ε > 0 this is equivalent to
`0 < q ∧ ε²·‖n‖² < q²`, which is rational-exact.  An invalid stored normal
(NaN in the source) makes `q` the dot with the zero sentinel, and the
`is_valid` guard returns false exactly as in the source. -/
def face_visible_sq (pts : List Vec3) (face : hull_face) (pt : Vec3) : Bool :=
  if face.normal.is_valid then
    decide (0 < Vec3.dot (pt.sub (ptAt pts face.a)) face.normal ∧
      PLANE_DIST_TOL ^ 2 * face.normal.len_sq <
        Vec3.dot (pt.sub (ptAt pts face.a)) face.normal ^ 2)
  else false

/-- One iteration of the scan in `convex_hull::get_farthest_pt`
(lines 203–213): skip vertices of the face, otherwise keep the strict
maximum of the plane distance.  Accumulator: `(ptIndex, pt, dMax)`. -/
def gfStep (pts : List Vec3) (face : hull_face) (acc : Nat × Vec3 × ℚ) (i : Nat) :
    Nat × Vec3 × ℚ :=
  if face.contains_vertex i then acc
  else
    let dist := face_plane_dist pts face (ptAt pts i)
    if acc.2.2 < dist then (i, ptAt pts i, dist) else acc

/-- Source `convex_hull::get_farthest_pt` (lines 198–216), verbatim form
(for a face whose stored normal is the unit normal, as in the source):
`ptIndex = -1`, `pt = unset`, `dMax = PLANE_DIST_TOL`, then the scan; the
call succeeds iff `ptIndex != -1` at the end. -/
def get_farthest_pt (pts : List Vec3) (outsidePts : List Nat) (face : hull_face) :
    Option (Nat × Vec3) :=
  let r := outsidePts.foldl (gfStep pts face) (UNSET_IDX, Vec3.unset, PLANE_DIST_TOL)
  if r.1 = UNSET_IDX then none else some (r.1, r.2.1)

/-- One iteration of `get_farthest_pt` in the pipeline representation
(unnormalized stored normal `n`).  The source compares plane distances
`q_i/‖n‖` against `dMax`, which starts at ε and afterwards carries the best
distance; the accumulator stores the best numerator `q` (`none` while
`dMax` is still ε), so the entry test is the cleared-denominator ε-test and
later comparisons reduce to comparing numerators over the common positive
denominator ‖n‖. -/
def gfSqStep (pts : List Vec3) (face : hull_face) (acc : Nat × Vec3 × Option ℚ) (i : Nat) :
    Nat × Vec3 × Option ℚ :=
  if face.contains_vertex i then acc
  else
    let q := Vec3.dot ((ptAt pts i).sub (ptAt pts face.a)) face.normal
    match acc.2.2 with
    | none =>
      if 0 < q ∧ PLANE_DIST_TOL ^ 2 * face.normal.len_sq < q ^ 2 then
        (i, ptAt pts i, some q)
      else acc
    | some qMax => if qMax < q then (i, ptAt pts i, some q) else acc

/-- Source `convex_hull::get_farthest_pt` (lines 198–216) in the pipeline
representation; returns `(fpi, farPt)` on success. -/
def get_farthest_sq (pts : List Vec3) (outsidePts : List Nat) (face : hull_face) :
    Option (Nat × Vec3) :=
  let r := outsidePts.foldl (gfSqStep pts face) (UNSET_IDX, Vec3.unset, none)
  if r.1 = UNSET_IDX then none else some (r.1, r.2.1)

/-- Error string thrown by all four degenerate-input branches of
`create_initial_simplex` (lines 266, 320, 337, 351). -/
def simplexErrMsg : String := "Failed to create the initial simplex"

/-- Error string thrown when an edge already has two adjacent faces
(`set_face`, line 156). -/
def edgeErrMsg : String := "Failed to add face to the edge map."

/-- The mutable state of one construction: `m_pts`, `m_faces`,
`m_edgeFaceMap`, `m_outsidePts`, `m_center`, plus the ghost field `created`
recording every face id registered through `set_face`, in program order
(used to state the freshness-of-ids invariant). -/
structure HullState where
  pts : List Vec3
  faces : List (Nat × hull_face)
  edgeFaceMap : List (IndexPair × IndexPair)
  outsidePts : List Nat
  center : Vec3
  created : List Nat
deriving DecidableEq

/-- Source `convex_hull::get_face` (lines 402–410). -/
def get_face (st : HullState) (id : Nat) : Option hull_face :=
  (st.faces.find? (fun kv => kv.1 == id)).map (fun kv => kv.2)

/-- Source `convex_hull::get_edge_faces` (lines 412–420); the edge key is
canonical (order-independent). -/
def get_edge_faces (st : HullState) (edge : IndexPair) : Option IndexPair :=
  (st.edgeFaceMap.find? (fun kv => edgeKeyEq kv.1 edge)).map (fun kv => kv.2)

/-- The map update `m_faces.insert_or_assign(face.id, face)` (line 151). -/
def upsertFace (faces : List (Nat × hull_face)) (id : Nat) (f : hull_face) :
    List (Nat × hull_face) :=
  if faces.any (fun kv => kv.1 == id) then
    faces.map (fun kv => if kv.1 == id then (id, f) else kv)
  else faces ++ [(id, f)]

/-- The assignment `m_edgeFaceMap[edge] = fPair` for an existing key
(line 177). -/
def setEdgeEntry (em : List (IndexPair × IndexPair)) (edge : IndexPair) (v : IndexPair) :
    List (IndexPair × IndexPair) :=
  em.map (fun kv => if edgeKeyEq kv.1 edge then (kv.1, v) else kv)

/-- The compound `m_edgeFaceMap[face.edge(ei)].add(face.id)` of `set_face`
(line 155): `operator[]` default-inserts an empty pair for an absent key,
then `index_pair::add` fills the first empty slot; `none` when both slots
are occupied (the fatal non-manifold signal). -/
def edgeMapAdd (em : List (IndexPair × IndexPair)) (edge : IndexPair) (fid : Nat) :
    Option (List (IndexPair × IndexPair)) :=
  match em.find? (fun kv => edgeKeyEq kv.1 edge) with
  | none =>
    match (IndexPair.mk UNSET_IDX UNSET_IDX).addIdx fid with
    | none => none
    | some v => some (em ++ [(edge, v)])
  | some kv =>
    match kv.2.addIdx fid with
    | none => none
    | some v => some (setEdgeEntry em edge v)

/-- The edge loop of `set_face` (lines 153–158) over `ei = 0, 1, 2`. -/
def edgeMapAdd3 (em : List (IndexPair × IndexPair)) (f : hull_face) :
    Option (List (IndexPair × IndexPair)) :=
  match edgeMapAdd em (f.edge 0) f.id with
  | none => none
  | some em0 =>
    match edgeMapAdd em0 (f.edge 1) f.id with
    | none => none
    | some em1 => edgeMapAdd em1 (f.edge 2) f.id

/-- The orientation step of `set_face` (lines 146–149): compute
`normal = unit((b−a) × (c−a))` and flip the face when `Center` lies on the
strictly positive side beyond tolerance (the pipeline stores the
unnormalized direction, see `Vec3.unitDir` / `face_visible_sq`). -/
def orient_face (pts : List Vec3) (center : Vec3) (face : hull_face) : hull_face :=
  let f1 := { face with
    normal := Vec3.unitDir
      (Vec3.cross ((ptAt pts face.b).sub (ptAt pts face.a))
        ((ptAt pts face.c).sub (ptAt pts face.a))) }
  if face_visible_sq pts f1 center then f1.flip else f1

/-- Modelled from the spec (claim wording of §4.5 step 4 and §9): a
registration that resolves orientation purely from the winding order of
the face as constructed, with no test against `Center`. -/
def orient_face_winding (pts : List Vec3) (face : hull_face) : hull_face :=
  { face with
    normal := Vec3.unitDir
      (Vec3.cross ((ptAt pts face.b).sub (ptAt pts face.a))
        ((ptAt pts face.c).sub (ptAt pts face.a))) }

/-- Source `convex_hull::set_face` (lines 144–159): orient the face (the
source mutates the caller's face through the reference parameter, so the
oriented face is returned alongside the new state), insert it into
`m_faces`, and add its id to the three edge records; `Except.error` models
the throw on a full edge record.  The ghost list `created` records the id. -/
def set_face (st : HullState) (face : hull_face) : Except String (hull_face × HullState) :=
  let f := orient_face st.pts st.center face
  let faces1 := upsertFace st.faces f.id f
  match edgeMapAdd3 st.edgeFaceMap f with
  | none => .error edgeErrMsg
  | some em1 =>
    .ok (f, { st with faces := faces1, edgeFaceMap := em1, created := st.created ++ [f.id] })

/-- The per-edge body of `pop_face` (lines 168–182), threading the edge map
through the three iterations: record the edge; when the edge record exists
and contains this id, clear the id, write the record back, and look up the
surviving neighbour (or the unset face). -/
def popEdge (st : HullState) (id : Nat) (face : hull_face) (ei : Nat) :
    (IndexPair × hull_face) × HullState :=
  let edge := face.edge ei
  match get_edge_faces st edge with
  | none => ((edge, hull_face.unsetFace), st)
  | some fPair =>
    if fPair.containsIdx id then
      let fPair1 := fPair.unsetIdx id
      let st1 := { st with edgeFaceMap := setEdgeEntry st.edgeFaceMap edge fPair1 }
      let adjFid := if fPair1.p = UNSET_IDX then fPair1.q else fPair1.p
      match get_face st1 adjFid with
      | none => ((edge, hull_face.unsetFace), st1)
      | some adj => ((edge, adj), st1)
    else ((edge, hull_face.unsetFace), st)

/-- Source `convex_hull::pop_face` (lines 161–186): remove the face from
`m_faces` (when present) and produce its three edges with the neighbouring
face across each (the unset face where there is none); returns the
default-constructed (invalid) face and no edge data when the id is absent,
in which case the caller skips it. -/
def pop_face (st : HullState) (id : Nat) :
    hull_face × List (IndexPair × hull_face) × HullState :=
  match get_face st id with
  | none => (hull_face.unsetFace, [], st)
  | some face =>
    let st1 := { st with faces := st.faces.filter (fun kv => !(kv.1 == id)) }
    let e0 := popEdge st1 id face 0
    let e1 := popEdge e0.2 id face 1
    let e2 := popEdge e1.2 id face 2
    (face, [e0.1, e1.1, e2.1], e2.2)

/-- The scan of one outside point against a face list, shared by the prune
loop of `create_initial_simplex` (lines 378–390) and the first loop of
`update_exterior_pts` (lines 223–235): `some true` when a face claims the
point as a vertex (removal), `some false` when some face sees the point
(outside), `none` when the list is exhausted with neither. -/
def scanFaces (pts : List Vec3) (faces : List hull_face) (opi : Nat) (testPt : Vec3) :
    Option Bool :=
  match faces with
  | [] => none
  | f :: rest =>
    if f.contains_vertex opi then some true
    else if face_visible_sq pts f testPt then some false
    else scanFaces pts rest opi testPt

/-- Source `convex_hull::update_exterior_pts` (lines 218–260): first loop
collects vertex-hits into `remove` and visible points into `check`; second
loop moves `check` points seen by no new face into `remove`; finally every
collected index is erased from the outside set. -/
def update_exterior_pts (pts : List Vec3) (newFaces poppedFaces : List hull_face)
    (outsidePts : List Nat) : List Nat :=
  let rc := outsidePts.foldl (fun (acc : List Nat × List Nat) opi =>
    match scanFaces pts poppedFaces opi (ptAt pts opi) with
    | some true => (acc.1 ++ [opi], acc.2)
    | some false => (acc.1, acc.2 ++ [opi])
    | none => acc) ([], [])
  let remove := rc.2.foldl (fun acc ci =>
    if newFaces.any (fun nf => face_visible_sq pts nf (ptAt pts ci)) then acc
    else acc ++ [ci]) rc.1
  outsidePts.filter (fun i => !(remove.contains i))

/-- The outside-set prune of `create_initial_simplex` (lines 376–399):
remove simplex vertices and points not visible from any seed face (the
visibility test there reads the point through `get_pt`). -/
def pruneOutside (pts : List Vec3) (simplex : List hull_face) (outsidePts : List Nat) :
    List Nat :=
  let removePts := outsidePts.foldl (fun acc opi =>
    match scanFaces pts simplex opi (get_pt pts opi) with
    | some true => acc ++ [opi]
    | some false => acc
    | none => acc ++ [opi]) []
  outsidePts.filter (fun i => !(removePts.contains i))

/-- Coordinate extraction `m_pts[pi].copy(coords)` with `coords[0..2] =
x, y, z` (line 289), as indexed by `ei / 2` in the bounds scan. -/
def coordAt (v : Vec3) (j : Nat) : ℚ :=
  match j with
  | 0 => v.x
  | 1 => v.y
  | _ => v.z

/-- One point's update of the six extreme records (lines 290–300).  A slot
is `(extreme, boundsIdx)`; the source seeds extremes with `±DBL_MAX` and
bounds with `(size_t)(-1)`, modelled as `(none, UNSET_IDX)`: a `none`
extreme compares the way `±DBL_MAX` does, i.e. the first point always
wins the slot. -/
def boundsStep (v : Vec3) (pi : Nat) (bs : List (Option ℚ × Nat)) :
    List (Option ℚ × Nat) :=
  (List.range 6).map (fun ei =>
    let s := bs.getD ei (none, UNSET_IDX)
    let c := coordAt v (ei / 2)
    if ei % 2 = 0 then
      match s.1 with
      | none => (some c, pi)
      | some e => if c < e then (some c, pi) else s
    else
      match s.1 with
      | none => (some c, pi)
      | some e => if e < c then (some c, pi) else s)

/-- The bounds scan of `create_initial_simplex` (lines 275–301): for each of
the six axis-aligned extreme directions, the index of the extremal point. -/
def computeBounds (pts : List Vec3) : List Nat :=
  (((List.range pts.length).foldl (fun bs pi => boundsStep (ptAt pts pi) pi bs)
    (List.replicate 6 (none, UNSET_IDX))).map (fun s => s.2))

/-- The pair loop `for i < 6, for j in i+1..5` of lines 305–317, flattened
in source iteration order. -/
def boundPairIdx : List (Nat × Nat) :=
  [(0, 1), (0, 2), (0, 3), (0, 4), (0, 5),
   (1, 2), (1, 3), (1, 4), (1, 5),
   (2, 3), (2, 4), (2, 5),
   (3, 4), (3, 5),
   (4, 5)]

/-- The extremal index stored in bounds slot `i` (`bounds[i]`, line 281). -/
def bsAt (pts : List Vec3) (i : Nat) : Nat := (computeBounds pts).getD i UNSET_IDX

/-- Squared distance between the extremal points in bounds slots `ij.1` and
`ij.2` (the `dist` of line 310). -/
def dA (pts : List Vec3) (ij : Nat × Nat) : ℚ :=
  Vec3.len_sq ((ptAt pts (bsAt pts ij.1)).sub (ptAt pts (bsAt pts ij.2)))

/-- One pair comparison of the vertex-0/1 selection (lines 310–315). -/
def stepAStep (pts : List Vec3) (acc : Nat × Nat × ℚ) (ij : Nat × Nat) : Nat × Nat × ℚ :=
  if acc.2.2 < dA pts ij then (bsAt pts ij.1, bsAt pts ij.2, dA pts ij) else acc

/-- Vertex-0/1 selection (lines 303–321): among all pairs of the six
extremal points, keep the first pair attaining the maximal squared
distance (`maxD` starts at `-DBL_MAX`; every squared distance is ≥ 0, so
the start value `-1` compares identically), and fail when the maximum is
`≤ 0`. -/
def stepA (pts : List Vec3) : Except String (Nat × Nat) :=
  let r := boundPairIdx.foldl (stepAStep pts) (UNSET_IDX, UNSET_IDX, -1)
  if r.2.2 ≤ 0 then .error simplexErrMsg else .ok (r.1, r.2.1)

/-- Vertex-2 selection (lines 323–337): maximize the squared perpendicular
distance from the line through vertices 0–1.  The source computes
`uDir = unit(u)` and `|v − uDir (uDir·v)|²`; for `u ≠ 0` this equals the
rational `|v − u (u·v)/‖u‖²|²` used here.  For `u = 0` the source's unit
vector is the NaN sentinel, every distance is NaN, no comparison succeeds
and the final `maxD ≤ 0` check throws; the embedding takes that branch
directly.  `maxD` starts at `-DBL_MAX`, modelled by `-1` (all squared
distances are ≥ 0). -/
def stepBStep (pts : List Vec3) (ref u : Vec3) (acc : Nat × ℚ) (pi : Nat) : Nat × ℚ :=
  let v := (ptAt pts pi).sub ref
  let d := Vec3.len_sq (v.sub (Vec3.scale (Vec3.dot u v / u.len_sq) u))
  if acc.2 < d then (pi, d) else acc

def stepB (pts : List Vec3) (b0 b1 : Nat) : Except String Nat :=
  let ref := ptAt pts b0
  let u := (ptAt pts b1).sub ref
  if u.len_sq = 0 then .error simplexErrMsg
  else
    let r := (List.range pts.length).foldl (stepBStep pts ref u) (UNSET_IDX, -1)
    if r.2 ≤ 0 then .error simplexErrMsg else .ok r.1

/-- Vertex-3 selection (lines 339–352): maximize the absolute perpendicular
distance from the plane through vertices 0, 1, 2.  The source computes
`uDir = unit(w)` for `w = (p1−ref) × (p2−ref)` and `|uDir · (p−ref)|
= |w·(p−ref)|/‖w‖`; the positive denominator `‖w‖` is common to all
candidates, so the fold tracks the numerator `|w·(p−ref)|`, preserving
both the argmax and the sign of the final `maxD ≤ 0` test.  For `w = 0`
(NaN distances in the source) the `maxD ≤ 0` throw is reached directly. -/
def stepCStep (pts : List Vec3) (ref w : Vec3) (acc : Nat × ℚ) (pi : Nat) : Nat × ℚ :=
  let d := |Vec3.dot w ((ptAt pts pi).sub ref)|
  if acc.2 < d then (pi, d) else acc

def stepC (pts : List Vec3) (b0 b1 b2 : Nat) : Except String Nat :=
  let ref := ptAt pts b0
  let w := Vec3.cross ((ptAt pts b1).sub ref) ((ptAt pts b2).sub ref)
  if w.len_sq = 0 then .error simplexErrMsg
  else
    let r := (List.range pts.length).foldl (stepCStep pts ref w) (UNSET_IDX, -1)
    if r.2 ≤ 0 then .error simplexErrMsg else .ok r.1

/-- The simplex-face registration loop (lines 368–374): register each valid
face through `set_face` (collecting the oriented faces, since the source
mutates the array entries through the reference parameter). -/
def registerFaces (st : HullState) (faces : List hull_face) :
    Except String (HullState × List hull_face) :=
  match faces with
  | [] => .ok (st, [])
  | f :: rest =>
    if f.is_valid then
      match set_face st f with
      | .error e => .error e
      | .ok (f1, st1) =>
        match registerFaces st1 rest with
        | .error e => .error e
        | .ok (st2, fs) => .ok (st2, f1 :: fs)
    else
      match registerFaces st rest with
      | .error e => .error e
      | .ok (st2, fs) => .ok (st2, f :: fs)

/-- The vertex-selection cascade of `create_initial_simplex` (lines
268–353): all four points when exactly four are given, otherwise the
three extremal-selection steps in sequence, each failure propagating the
degenerate-input error. -/
def chooseSimplexVertices (pts : List Vec3) : Except String (Nat × Nat × Nat × Nat) :=
  if pts.length = 4 then .ok (0, 1, 2, 3)
  else
    match stepA pts with
    | .error e => .error e
    | .ok (b0, b1) =>
      match stepB pts b0 b1 with
      | .error e => .error e
      | .ok b2 =>
        match stepC pts b0 b1 b2 with
        | .error e => .error e
        | .ok b3 => .ok (b0, b1, b2, b3)

/-- Source `convex_hull::create_initial_simplex` (lines 262–400): vertex
selection (guarded by the `m_nPts < 4` throw), construction of the four
seed faces with consecutive ids from `faceIndex`, the centroid
`m_center`, registration through `set_face`, and the outside-set prune.
Returns the new state and the advanced face counter. -/
def create_initial_simplex (st : HullState) (faceIndex : Nat) :
    Except String (HullState × Nat) :=
  let n := st.pts.length
  if n < 4 then .error simplexErrMsg
  else
    match chooseSimplexVertices st.pts with
    | .error e => .error e
    | .ok (b0, b1, b2, b3) =>
      let s0 := hull_face.mk faceIndex b0 b1 b2 Vec3.unset
      let s1 := hull_face.mk (faceIndex + 1) b0 b2 b3 Vec3.unset
      let s2 := hull_face.mk (faceIndex + 2) b1 b2 b3 Vec3.unset
      let s3 := hull_face.mk (faceIndex + 3) b0 b1 b3 Vec3.unset
      let center := Vec3.divScalar
        ((((Vec3.zero.add (ptAt st.pts b0)).add (ptAt st.pts b1)).add
          (ptAt st.pts b2)).add (ptAt st.pts b3)) 4
      let st1 := { st with center := center }
      match registerFaces st1 [s0, s1, s2, s3] with
      | .error e => .error e
      | .ok (st2, oriented) =>
        .ok ({ st2 with outsidePts := pruneOutside st2.pts oriented st2.outsidePts },
          faceIndex + 4)

/-- The cavity flood (lines 107–129): pop ids from the local queue; a pop of
an absent face is skipped; each popped face is recorded, and each of its
surviving neighbours is either enqueued (visible from the far point) or
contributes its shared edge to the horizon list.  The source loop
terminates because every enqueue stems from a successfully popped face;
`fuel` bounds the iterations in this embedding and is chosen ample by the
caller. -/
def flood (pts : List Vec3) (farPt : Vec3) :
    Nat → List Nat → HullState → List hull_face → List IndexPair →
    List hull_face × List IndexPair × HullState
  | 0, _, st, popped, horizon => (popped, horizon, st)
  | _ + 1, [], st, popped, horizon => (popped, horizon, st)
  | fuel + 1, pid :: rest, st, popped, horizon =>
    let pr := pop_face st pid
    if pr.1.is_valid then
      let step := pr.2.1.foldl (fun (acc : List Nat × List IndexPair) it =>
        if it.2.is_valid then
          if face_visible_sq pts it.2 farPt then (acc.1 ++ [it.2.id], acc.2)
          else (acc.1, acc.2 ++ [it.1])
        else acc) ([], [])
      flood pts farPt fuel (rest ++ step.1) pr.2.2 (popped ++ [pr.1]) (horizon ++ step.2)
    else flood pts farPt fuel rest pr.2.2 popped horizon

/-- The horizon re-triangulation loop (lines 131–138): for each horizon edge
`(p, q)` construct `hull_face(curFaceId++, fpi, p, q)` and register it via
`set_face`; returns the oriented new faces in order, the advanced counter
and the new state. -/
def addNewFaces (st : HullState) (counter fpi : Nat) :
    List IndexPair → Except String (List hull_face × Nat × HullState)
  | [] => .ok ([], counter, st)
  | he :: rest =>
    match set_face st (hull_face.mk counter fpi he.p he.q Vec3.unset) with
    | .error e => .error e
    | .ok (nf, st1) =>
      match addNewFaces st1 (counter + 1) fpi rest with
      | .error e => .error e
      | .ok (nfs, counter2, st2) => .ok (nf :: nfs, counter2, st2)

/-- Source main loop of `convex_hull::compute` (lines 97–141): take the next
face id from the work queue; skip it when the face is gone or has no
outside point strictly beyond tolerance; otherwise flood the cavity from
its farthest point, re-triangulate the horizon (appending the new ids to
the queue) and update the outside set.  `fuel` bounds the iterations of
the source's `while`; exhausting it returns the state reached. -/
def computeLoop : Nat → Nat → List Nat → HullState → Except String (HullState × Nat)
  | 0, counter, _, st => .ok (st, counter)
  | _ + 1, counter, [], st => .ok (st, counter)
  | fuel + 1, counter, fi :: rest, st =>
    match get_face st fi with
    | none => computeLoop fuel counter rest st
    | some curFace =>
      match get_farthest_sq st.pts st.outsidePts curFace with
      | none => computeLoop fuel counter rest st
      | some (fpi, farPt) =>
        let fl := flood st.pts farPt (3 * st.faces.length + 3) [fi] st [] []
        match addNewFaces fl.2.2 counter fpi fl.2.1 with
        | .error e => .error e
        | .ok (newFaces, counter1, st2) =>
          computeLoop fuel counter1 (rest ++ newFaces.map (fun nf => nf.id))
            { st2 with outsidePts :=
              update_exterior_pts st2.pts newFaces fl.1 st2.outsidePts }

/-- Source `convex_hull::compute` (lines 79–142): create the initial
simplex, seed the work queue with the live face ids, and run the main
loop. -/
def compute (fuel : Nat) (st : HullState) : Except String HullState :=
  match create_initial_simplex st 0 with
  | .error e => .error e
  | .ok (st1, counter) =>
    match computeLoop fuel counter (st1.faces.map (fun kv => kv.1)) st1 with
    | .error e => .error e
    | .ok (st2, _) => .ok st2

/-- Source constructor `convex_hull::convex_hull` (lines 46–57): store the
points (the flat `double*` buffer is modelled as the point list) and
insert every index `0..n−1` into the outside set. -/
def init_state (pts : List Vec3) : HullState :=
  { pts := pts, faces := [], edgeFaceMap := [], outsidePts := List.range pts.length,
    center := Vec3.unset, created := [] }

/-- Full construction: the constructor followed by `compute` (line 56);
a thrown degenerate-input or corruption error unwinds with no state, so
the caller observes either a finished state or the error string. -/
def convex_hull (fuel : Nat) (pts : List Vec3) : Except String HullState :=
  compute fuel (init_state pts)

/-- Shorthand for a finite (valid) point. -/
def qv (a b c : ℚ) : Vec3 := ⟨a, b, c, true⟩

/-- A non-degenerate 4-point input (a tetrahedron). -/
def tetraPts : List Vec3 := [qv 0 0 0, qv 4 0 0, qv 0 4 0, qv 0 0 4]

/-- Five distinct, non-collinear, coplanar points (all in the plane z = 0). -/
def cop5Pts : List Vec3 := [qv 0 0 0, qv 4 0 0, qv 0 4 0, qv 4 4 0, qv 1 2 0]

/-- A 3-point input (fewer than the 4 required). -/
def threePts : List Vec3 := [qv 0 0 0, qv 1 0 0, qv 0 1 0]

/-- Points for the orientation example: a triangle in the plane z = 0. -/
def c1pts : List Vec3 := [qv 0 0 0, qv 1 0 0, qv 0 1 0]

/-- A face over `c1pts` as constructed during re-triangulation (normal not
yet computed, as by the `hull_face` constructor). -/
def c1face : hull_face := ⟨7, 0, 1, 2, Vec3.unset⟩

/-- A centre on the positive side of `c1face`'s winding plane. -/
def c1centerA : Vec3 := qv 0 0 1

/-- A centre on the negative side of `c1face`'s winding plane. -/
def c1centerB : Vec3 := qv 0 0 (-1)

/-- A face whose vertex 0 indexes into `c1pts`; its normal is the unset
sentinel, so it sees no point (the popped-face list of the C2 failing
input). -/
def c2popped : hull_face := ⟨5, 0, 1, 2, Vec3.unset⟩

/-- Extract the final state of a successful run (used to phrase concrete
instantiations of theorems about successful runs). -/
def stateOf (r : Except String HullState) : HullState :=
  match r with
  | .ok st => st
  | .error _ => init_state []

/-- A face with a valid stored normal over `c1pts` (for concrete instances
of the visibility/farthest-point specifications). -/
def wFace : hull_face := ⟨3, 0, 1, 2, qv 0 0 1⟩

/-- Invariant of the farthest-point scan: either no candidate has been
accepted (accumulator untouched, all processed distances at most ε) or
the accumulator holds a processed index attaining the running maximum,
which strictly exceeds ε and bounds all processed distances. -/
def gfInv (pts : List Vec3) (face : hull_face) (processed : List Nat)
    (acc : Nat × Vec3 × ℚ) : Prop :=
  (acc.1 = UNSET_IDX ∧ acc.2.1 = Vec3.unset ∧ acc.2.2 = PLANE_DIST_TOL ∧
    ∀ j ∈ processed, face_plane_dist pts face (ptAt pts j) ≤ PLANE_DIST_TOL) ∨
  (acc.1 ≠ UNSET_IDX ∧ acc.1 ∈ processed ∧ acc.2.1 = ptAt pts acc.1 ∧
    acc.2.2 = face_plane_dist pts face (ptAt pts acc.1) ∧ PLANE_DIST_TOL < acc.2.2 ∧
    ∀ j ∈ processed, face_plane_dist pts face (ptAt pts j) ≤ acc.2.2)

/-- Points for concrete farthest-point instances: a triangle in the plane
z = 0 plus one point far above it. -/
def wPts : List Vec3 := [qv 0 0 0, qv 1 0 0, qv 0 1 0, qv 1 1 5]

/-- A small state holding just the face `wFace`, with an empty outside set
(for a concrete instance of the settled-face discard). -/
def wState : HullState :=
  { pts := c1pts, faces := [(3, wFace)], edgeFaceMap := [], outsidePts := [],
    center := Vec3.unset, created := [3] }

/-- Extract the state of a successful state-and-counter computation. -/
def okStateOf (r : Except String (HullState × Nat)) : HullState :=
  match r with
  | .ok p => p.1
  | .error _ => init_state []

/-- Extract the counter of a successful state-and-counter computation. -/
def okCtrOf (r : Except String (HullState × Nat)) : Nat :=
  match r with
  | .ok p => p.2
  | .error _ => 0

/-- The state right after the initial simplex of the tetrahedron run. -/
def tetraSimplexState : HullState := okStateOf (create_initial_simplex (init_state tetraPts) 0)

/-- Five points whose hull run exercises the extremal-pair path. -/
def fivePts : List Vec3 := [qv 0 0 0, qv 4 0 0, qv 0 4 0, qv 0 0 4, qv 3 3 3]

/-- Coplanarity of the (real) input points: a common plane through `o`
with nonzero normal `m`. -/
def CoplanarPts (pts : List Vec3) : Prop :=
  ∃ m o : Vec3, ¬(m.x = 0 ∧ m.y = 0 ∧ m.z = 0) ∧
    ∀ i, i < pts.length → Vec3.dot m ((ptAt pts i).sub o) = 0

/-- C5: `face_visible(face, point)` is true iff the face's normal is valid
and the signed plane distance — the dot product of `(point − a)` with the
stored normal — strictly exceeds `PLANE_DIST_TOL`; a face whose normal is
the invalid sentinel is never visible (and no error is raised: the
function is total). -/
theorem C5_face_visible_spec (pts : List Vec3) (face : hull_face) (pt : Vec3) :
    (face_visible pts face pt = true ↔
      face.normal.is_valid = true ∧ PLANE_DIST_TOL < face_plane_dist pts face pt) ∧
    (face.normal = Vec3.unset → face_visible pts face pt = false) := by
  constructor
  · unfold face_visible
    by_cases h : face.normal.is_valid = true
    · simp [h]
    · simp [h]
  · intro h
    unfold face_visible
    simp [h, Vec3.is_valid, Vec3.unset]

/-- Concrete instance of `C5_face_visible_spec`. -/
theorem C5_face_visible_spec_w :
    (face_visible c1pts wFace (qv 0 0 1) = true ↔
      wFace.normal.is_valid = true ∧ PLANE_DIST_TOL < face_plane_dist c1pts wFace (qv 0 0 1)) ∧
    (hull_face.unsetFace.normal = Vec3.unset →
      face_visible c1pts hull_face.unsetFace (qv 0 0 1) = false) :=
  ⟨(C5_face_visible_spec c1pts wFace (qv 0 0 1)).1,
   (C5_face_visible_spec c1pts hull_face.unsetFace (qv 0 0 1)).2⟩

/-- C9 (implicit): `contains_vertex(vi)` is true only when `vi` is the
`(size_t)(-1)` sentinel and that sentinel occurs among the face's
vertices; for every non-sentinel index it is false — so the vertex-skip in
`get_farthest_pt` and the vertex-removal branch in `update_exterior_pts`
never trigger for real point indices. -/
theorem C9_contains_vertex_spec (f : hull_face) (vi : Nat) :
    (f.contains_vertex vi = true ↔
      vi = UNSET_IDX ∧ (f.a = UNSET_IDX ∨ f.b = UNSET_IDX ∨ f.c = UNSET_IDX)) ∧
    (vi ≠ UNSET_IDX → f.contains_vertex vi = false) := by
  have key : f.contains_vertex vi = true ↔
      vi = UNSET_IDX ∧ (vi = f.a ∨ vi = f.b ∨ vi = f.c) := by
    unfold hull_face.contains_vertex
    simp [Bool.and_eq_true, Bool.or_eq_true, beq_iff_eq, or_assoc]
  constructor
  · constructor
    · intro h
      obtain ⟨h1, h2⟩ := key.mp h
      refine ⟨h1, ?_⟩
      rw [h1] at h2
      rcases h2 with h | h | h
      · exact Or.inl h.symm
      · exact Or.inr (Or.inl h.symm)
      · exact Or.inr (Or.inr h.symm)
    · intro h
      obtain ⟨h1, h2⟩ := h
      refine key.mpr ⟨h1, ?_⟩
      rw [h1]
      rcases h2 with h | h | h
      · exact Or.inl h.symm
      · exact Or.inr (Or.inl h.symm)
      · exact Or.inr (Or.inr h.symm)
  · intro h
    rw [Bool.eq_false_iff]
    intro hc
    exact h (key.mp hc).1

/-- Concrete instance of `C9_contains_vertex_spec`: index 1 is never
treated as a vertex, even of a face that really has vertex 1. -/
theorem C9_contains_vertex_spec_w : wFace.contains_vertex 1 = false :=
  (C9_contains_vertex_spec wFace 1).2 (by decide)

/-- C2 (failing input): in `update_exterior_pts`, outside point 0 is a
vertex of the (single) popped face, yet the update leaves it in the
outside set — `contains_vertex` compares `vi == -1` instead of testing
membership, so the removal branch for vertices of popped faces is dead. -/
theorem C2_vertex_not_removed :
    c2popped.a = 0 ∧ update_exterior_pts c1pts [] [c2popped] [0] = [0] := by decide

/-- C1 (counterexample): the registration step `set_face` resolves the
orientation of every face — including the faces built on horizon edges
during cavity re-triangulation (compute, lines 133–138) — by testing the
face's plane against `Center` (line 147): the registered face differs
from the pure-winding registration `orient_face_winding`, and moving
`Center` to the other side of the plane changes the registered result.
Orientation is therefore not resolved purely from the winding order of
the horizon edge. -/
theorem C1_orientation_center_dependent :
    orient_face c1pts c1centerA c1face ≠ orient_face_winding c1pts c1face ∧
    orient_face c1pts c1centerA c1face ≠ orient_face c1pts c1centerB c1face := by decide

/-- Dotting with a reversed vector negates the dot product. -/
theorem dot_reverse (v w : Vec3) : Vec3.dot v w.reverse = -(Vec3.dot v w) := by
  unfold Vec3.dot Vec3.reverse
  ring

/-- Unfolded characterization of `face_visible_sq`. -/
theorem face_visible_sq_iff (pts : List Vec3) (f : hull_face) (pt : Vec3) :
    face_visible_sq pts f pt = true ↔
      f.normal.is_valid = true ∧
        0 < Vec3.dot (pt.sub (ptAt pts f.a)) f.normal ∧
        PLANE_DIST_TOL ^ 2 * f.normal.len_sq <
          Vec3.dot (pt.sub (ptAt pts f.a)) f.normal ^ 2 := by
  unfold face_visible_sq
  by_cases h : f.normal.is_valid = true
  · simp [h]
  · simp [h]

/-- After the orientation step of `set_face` (flip exactly when the centre
is strictly visible), the centre is never visible from the stored face. -/
theorem orient_kills_visibility (pts : List Vec3) (center : Vec3) (f1 : hull_face) :
    face_visible_sq pts (if face_visible_sq pts f1 center then f1.flip else f1) center
      = false := by
  by_cases h : face_visible_sq pts f1 center = true
  · rw [if_pos h]
    obtain ⟨hv, hq, _⟩ := (face_visible_sq_iff pts f1 center).mp h
    rw [Bool.eq_false_iff]
    intro hc
    obtain ⟨_, hq2, _⟩ := (face_visible_sq_iff pts f1.flip center).mp hc
    have hrw : Vec3.dot (center.sub (ptAt pts f1.flip.a)) f1.flip.normal
        = -(Vec3.dot (center.sub (ptAt pts f1.a)) f1.normal) := by
      show Vec3.dot (center.sub (ptAt pts f1.a)) f1.normal.reverse = _
      exact dot_reverse _ _
    rw [hrw] at hq2
    linarith
  · rw [if_neg h]
    exact Bool.eq_false_iff.mpr h

/-- C1 (amended): every face registered through `set_face` — the 4 initial
simplex faces and every cavity re-triangulation face alike — has its
orientation resolved by the test of its plane against `Center`, flipping
when `Center` is strictly visible; consequently `Center` is never visible
from any face as registered. -/
theorem C1_all_faces_center_oriented (pts : List Vec3) (center : Vec3) (face : hull_face) :
    face_visible_sq pts (orient_face pts center face) center = false := by
  simp only [orient_face]
  exact orient_kills_visibility pts center _

/-- C7: with fewer than 4 points the construction fails with the
degenerate-input error before any face is created: `create_initial_simplex`
throws on its first check and the error propagates out of the constructor,
so no state (face registry, edge map, output) is ever produced. -/
theorem C7_fewer_than_four (fuel : Nat) (pts : List Vec3) (h : pts.length < 4) :
    convex_hull fuel pts = .error simplexErrMsg := by
  unfold convex_hull compute create_initial_simplex init_state
  simp [h]

/-- Concrete instance of `C7_fewer_than_four` at a 3-point input. -/
theorem C7_fewer_than_four_w : convex_hull 1 threePts = .error simplexErrMsg :=
  C7_fewer_than_four 1 threePts (by decide)

set_option maxRecDepth 4000 in
/-- C3 (counterexample): an input of 5 coplanar points and an input of 3
points fail with the very same error value ("Failed to create the initial
simplex", thrown by all degenerate branches of `create_initial_simplex`),
so the two failures are not distinguishable by the caller. -/
theorem C3_same_error_value :
    convex_hull 5 cop5Pts = .error simplexErrMsg ∧
    convex_hull 5 threePts = .error simplexErrMsg := ⟨rfl, rfl⟩

/-- For a non-sentinel index, `contains_vertex` is always false (the
`vi == -1` comparison in line 43 fails). -/
theorem contains_vertex_ne_false (f : hull_face) (vi : Nat) (h : vi ≠ UNSET_IDX) :
    f.contains_vertex vi = false := by
  unfold hull_face.contains_vertex
  simp [h]

/-- One step of the scan preserves the invariant. -/
theorem gfInv_step (pts : List Vec3) (face : hull_face) (processed : List Nat)
    (acc : Nat × Vec3 × ℚ) (i : Nat) (hi : i ≠ UNSET_IDX)
    (h : gfInv pts face processed acc) :
    gfInv pts face (processed ++ [i]) (gfStep pts face acc i) := by
  unfold gfStep
  rw [contains_vertex_ne_false face i hi]
  simp only [Bool.false_eq_true, if_false]
  rcases h with ⟨h1, h2, h3, hall⟩ | ⟨h1, h2, h3, h4, h5, hall⟩
  · by_cases hlt : acc.2.2 < face_plane_dist pts face (ptAt pts i)
    · rw [if_pos hlt]
      refine Or.inr ⟨hi, by simp, rfl, rfl, ?_, ?_⟩
      · rw [← h3]; exact hlt
      · intro j hj
        rcases List.mem_append.mp hj with hj | hj
        · exact le_of_lt (lt_of_le_of_lt (h3 ▸ hall j hj) hlt)
        · simp only [List.mem_singleton] at hj
          subst hj
          exact le_refl _
    · rw [if_neg hlt]
      refine Or.inl ⟨h1, h2, h3, ?_⟩
      intro j hj
      rcases List.mem_append.mp hj with hj | hj
      · exact hall j hj
      · simp only [List.mem_singleton] at hj
        subst hj
        rw [← h3]
        exact le_of_not_lt hlt
  · by_cases hlt : acc.2.2 < face_plane_dist pts face (ptAt pts i)
    · rw [if_pos hlt]
      refine Or.inr ⟨hi, by simp, rfl, rfl, lt_trans h5 hlt, ?_⟩
      intro j hj
      rcases List.mem_append.mp hj with hj | hj
      · exact le_of_lt (lt_of_le_of_lt (hall j hj) hlt)
      · simp only [List.mem_singleton] at hj
        subst hj
        exact le_refl _
    · rw [if_neg hlt]
      refine Or.inr ⟨h1, by simp [h2], h3, h4, h5, ?_⟩
      intro j hj
      rcases List.mem_append.mp hj with hj | hj
      · exact hall j hj
      · simp only [List.mem_singleton] at hj
        subst hj
        exact le_of_not_lt hlt

/-- The whole scan preserves the invariant. -/
theorem gfInv_fold (pts : List Vec3) (face : hull_face) :
    ∀ (l processed : List Nat) (acc : Nat × Vec3 × ℚ),
      (∀ j ∈ l, j ≠ UNSET_IDX) → gfInv pts face processed acc →
      gfInv pts face (processed ++ l) (l.foldl (gfStep pts face) acc) := by
  intro l
  induction l with
  | nil => intro processed acc _ h; simpa using h
  | cons i rest ih =>
    intro processed acc hne h
    have hstep := gfInv_step pts face processed acc i (hne i (by simp)) h
    have := ih (processed ++ [i]) (gfStep pts face acc i)
      (fun j hj => hne j (by simp [hj])) hstep
    simpa using this

/-- C6: `get_farthest_pt` succeeds iff some outside-set point has signed
plane distance strictly greater than `PLANE_DIST_TOL`; on success it
returns an outside-set point attaining the maximum distance (together
with its coordinates); and when it fails on a live face the main loop
discards that face without changing any state (the iteration reduces to
the loop on the remaining queue with the state unchanged).  The sentinel
`(size_t)(-1)` never occurs as a point index of the outside set. -/
theorem C6_get_farthest_spec :
    (∀ (pts : List Vec3) (outs : List Nat) (face : hull_face),
      (∀ j ∈ outs, j ≠ UNSET_IDX) →
      get_farthest_pt pts outs face = none →
      ∀ j ∈ outs, face_plane_dist pts face (ptAt pts j) ≤ PLANE_DIST_TOL) ∧
    (∀ (pts : List Vec3) (outs : List Nat) (face : hull_face) (i : Nat) (p : Vec3),
      (∀ j ∈ outs, j ≠ UNSET_IDX) →
      get_farthest_pt pts outs face = some (i, p) →
      i ∈ outs ∧ p = ptAt pts i ∧
        PLANE_DIST_TOL < face_plane_dist pts face (ptAt pts i) ∧
        ∀ j ∈ outs, face_plane_dist pts face (ptAt pts j) ≤
          face_plane_dist pts face (ptAt pts i)) ∧
    (∀ (fuel counter fi : Nat) (rest : List Nat) (st : HullState) (f : hull_face),
      get_face st fi = some f →
      get_farthest_sq st.pts st.outsidePts f = none →
      computeLoop (fuel + 1) counter (fi :: rest) st = computeLoop fuel counter rest st) := by
  have key : ∀ (pts : List Vec3) (outs : List Nat) (face : hull_face),
      (∀ j ∈ outs, j ≠ UNSET_IDX) →
      gfInv pts face outs
        (outs.foldl (gfStep pts face) (UNSET_IDX, Vec3.unset, PLANE_DIST_TOL)) := by
    intro pts outs face hne
    have := gfInv_fold pts face outs [] (UNSET_IDX, Vec3.unset, PLANE_DIST_TOL) hne
      (Or.inl ⟨rfl, rfl, rfl, by simp⟩)
    simpa using this
  refine ⟨?_, ?_, ?_⟩
  · intro pts outs face hne hnone j hj
    have hInv := key pts outs face hne
    unfold get_farthest_pt at hnone
    rcases hInv with ⟨_, _, _, hall⟩ | ⟨h1, _⟩
    · exact hall j hj
    · rw [if_neg h1] at hnone
      exact absurd hnone (by simp)
  · intro pts outs face i p hne hsome
    have hInv := key pts outs face hne
    unfold get_farthest_pt at hsome
    rcases hInv with ⟨h1, _, _, _⟩ | ⟨h1, h2, h3, h4, h5, hall⟩
    · rw [if_pos h1] at hsome
      exact absurd hsome (by simp)
    · simp only [if_neg h1, Option.some.injEq, Prod.mk.injEq] at hsome
      obtain ⟨rfl, rfl⟩ := hsome
      exact ⟨h2, h3, h4 ▸ h5, fun j hj => h4 ▸ hall j hj⟩
  · intro fuel counter fi rest st f hface hfar
    simp only [computeLoop, hface, hfar]

/-- Concrete instance of `C6_get_farthest_spec`: a settled face (no outside
point beyond tolerance) is discarded by the loop with the state
untouched. -/
theorem C6_get_farthest_spec_w :
    computeLoop 1 0 (3 :: []) wState = computeLoop 0 0 [] wState :=
  C6_get_farthest_spec.2.2 0 0 3 [] wState wFace (by decide) (by decide)

/-- `popEdge` keeps the outside set. -/
theorem popEdge_out (st : HullState) (id : Nat) (face : hull_face) (ei : Nat) :
    (popEdge st id face ei).2.outsidePts = st.outsidePts := by
  simp only [popEdge]
  split
  · rfl
  · split
    · split
      · rfl
      · rfl
    · rfl

/-- `popEdge` keeps the points. -/
theorem popEdge_pts (st : HullState) (id : Nat) (face : hull_face) (ei : Nat) :
    (popEdge st id face ei).2.pts = st.pts := by
  simp only [popEdge]
  split
  · rfl
  · split
    · split
      · rfl
      · rfl
    · rfl

/-- `popEdge` keeps the ghost id list. -/
theorem popEdge_created (st : HullState) (id : Nat) (face : hull_face) (ei : Nat) :
    (popEdge st id face ei).2.created = st.created := by
  simp only [popEdge]
  split
  · rfl
  · split
    · split
      · rfl
      · rfl
    · rfl

/-- `popEdge` keeps the face registry. -/
theorem popEdge_faces (st : HullState) (id : Nat) (face : hull_face) (ei : Nat) :
    (popEdge st id face ei).2.faces = st.faces := by
  simp only [popEdge]
  split
  · rfl
  · split
    · split
      · rfl
      · rfl
    · rfl

/-- `popEdge` packaged. -/
theorem popEdge_state (st : HullState) (id : Nat) (face : hull_face) (ei : Nat) :
    (popEdge st id face ei).2.outsidePts = st.outsidePts ∧
    (popEdge st id face ei).2.pts = st.pts ∧
    (popEdge st id face ei).2.created = st.created ∧
    (popEdge st id face ei).2.faces = st.faces :=
  ⟨popEdge_out st id face ei, popEdge_pts st id face ei, popEdge_created st id face ei,
    popEdge_faces st id face ei⟩

/-- `pop_face` touches only the face registry and the edge map. -/
theorem pop_face_state (st : HullState) (id : Nat) :
    (pop_face st id).2.2.outsidePts = st.outsidePts ∧
    (pop_face st id).2.2.pts = st.pts ∧
    (pop_face st id).2.2.created = st.created := by
  unfold pop_face
  split
  · exact ⟨rfl, rfl, rfl⟩
  · refine ⟨?_, ?_, ?_⟩
    · rw [popEdge_out, popEdge_out, popEdge_out]
    · rw [popEdge_pts, popEdge_pts, popEdge_pts]
    · rw [popEdge_created, popEdge_created, popEdge_created]

/-- The cavity flood touches only the face registry and the edge map. -/
theorem flood_state (pts : List Vec3) (farPt : Vec3) :
    ∀ (fuel : Nat) (q : List Nat) (st : HullState) (popped : List hull_face)
      (horizon : List IndexPair),
      (flood pts farPt fuel q st popped horizon).2.2.outsidePts = st.outsidePts ∧
      (flood pts farPt fuel q st popped horizon).2.2.pts = st.pts ∧
      (flood pts farPt fuel q st popped horizon).2.2.created = st.created := by
  intro fuel
  induction fuel with
  | zero => intro q st popped horizon; exact ⟨rfl, rfl, rfl⟩
  | succ fuel ih =>
    intro q st popped horizon
    match q with
    | [] => exact ⟨rfl, rfl, rfl⟩
    | pid :: rest =>
      by_cases hv : (pop_face st pid).1.is_valid = true
      · have hrw : flood pts farPt (fuel + 1) (pid :: rest) st popped horizon =
            flood pts farPt fuel
              (rest ++ ((pop_face st pid).2.1.foldl
                (fun (acc : List Nat × List IndexPair) it =>
                  if it.2.is_valid then
                    if face_visible_sq pts it.2 farPt then (acc.1 ++ [it.2.id], acc.2)
                    else (acc.1, acc.2 ++ [it.1])
                  else acc) ([], [])).1)
              (pop_face st pid).2.2 (popped ++ [(pop_face st pid).1])
              (horizon ++ ((pop_face st pid).2.1.foldl
                (fun (acc : List Nat × List IndexPair) it =>
                  if it.2.is_valid then
                    if face_visible_sq pts it.2 farPt then (acc.1 ++ [it.2.id], acc.2)
                    else (acc.1, acc.2 ++ [it.1])
                  else acc) ([], [])).2) := by
          simp only [flood]
          rw [if_pos hv]
        rw [hrw]
        refine ⟨?_, ?_, ?_⟩
        · rw [(ih _ _ _ _).1, (pop_face_state _ _).1]
        · rw [(ih _ _ _ _).2.1, (pop_face_state _ _).2.1]
        · rw [(ih _ _ _ _).2.2, (pop_face_state _ _).2.2]
      · have hrw : flood pts farPt (fuel + 1) (pid :: rest) st popped horizon =
            flood pts farPt fuel rest (pop_face st pid).2.2 popped horizon := by
          simp only [flood]
          rw [if_neg hv]
        rw [hrw]
        refine ⟨?_, ?_, ?_⟩
        · rw [(ih _ _ _ _).1, (pop_face_state _ _).1]
        · rw [(ih _ _ _ _).2.1, (pop_face_state _ _).2.1]
        · rw [(ih _ _ _ _).2.2, (pop_face_state _ _).2.2]

/-- `set_face` touches neither the outside set nor the points; it appends
exactly its face id to the ghost list. -/
theorem set_face_state (st : HullState) (f f1 : hull_face) (st1 : HullState)
    (h : set_face st f = .ok (f1, st1)) :
    st1.outsidePts = st.outsidePts ∧ st1.pts = st.pts ∧
    st1.created = st.created ++ [(orient_face st.pts st.center f).id] ∧
    f1 = orient_face st.pts st.center f := by
  simp only [set_face] at h
  split at h
  · exact absurd h (by simp)
  · simp only [Except.ok.injEq, Prod.mk.injEq] at h
    obtain ⟨h1, h2⟩ := h
    subst h2
    exact ⟨rfl, rfl, rfl, h1.symm⟩

/-- `addNewFaces` touches neither the outside set nor the points. -/
theorem addNewFaces_state (fpi : Nat) :
    ∀ (horizon : List IndexPair) (st : HullState) (counter : Nat)
      (nfs : List hull_face) (counter1 : Nat) (st1 : HullState),
      addNewFaces st counter fpi horizon = .ok (nfs, counter1, st1) →
      st1.outsidePts = st.outsidePts ∧ st1.pts = st.pts := by
  intro horizon
  induction horizon with
  | nil =>
    intro st counter nfs counter1 st1 h
    simp only [addNewFaces, Except.ok.injEq, Prod.mk.injEq] at h
    obtain ⟨-, -, h3⟩ := h
    subst h3
    exact ⟨rfl, rfl⟩
  | cons he rest ih =>
    intro st counter nfs counter1 st1 h
    unfold addNewFaces at h
    cases hset : set_face st (hull_face.mk counter fpi he.p he.q Vec3.unset) with
    | error e => rw [hset] at h; exact absurd h (by simp)
    | ok pr =>
      obtain ⟨f2, st2⟩ := pr
      rw [hset] at h
      dsimp only [] at h
      cases hrest : addNewFaces st2 (counter + 1) fpi rest with
      | error e => rw [hrest] at h; exact absurd h (by simp)
      | ok tr =>
        obtain ⟨nfs2, counter2, st3⟩ := tr
        rw [hrest] at h
        simp only [Except.ok.injEq, Prod.mk.injEq] at h
        obtain ⟨-, -, h3⟩ := h
        subst h3
        obtain ⟨o1, p1⟩ := ih st2 (counter + 1) nfs2 counter2 st3 hrest
        obtain ⟨o2, p2, -, -⟩ := set_face_state st _ f2 st2 hset
        exact ⟨o1.trans o2, p1.trans p2⟩

/-- The outside-set update only removes indices (final erase loop = filter). -/
theorem update_exterior_subset (pts : List Vec3) (newFaces poppedFaces : List hull_face)
    (outs : List Nat) : update_exterior_pts pts newFaces poppedFaces outs ⊆ outs := by
  intro a ha
  exact List.mem_of_mem_filter ha

/-- The initial-simplex prune only removes indices. -/
theorem prune_subset (pts : List Vec3) (simplex : List hull_face) (outs : List Nat) :
    pruneOutside pts simplex outs ⊆ outs := by
  intro a ha
  exact List.mem_of_mem_filter ha

/-- `registerFaces` touches neither the outside set nor the points. -/
theorem registerFaces_state :
    ∀ (faces : List hull_face) (st st1 : HullState) (fs : List hull_face),
      registerFaces st faces = .ok (st1, fs) →
      st1.outsidePts = st.outsidePts ∧ st1.pts = st.pts := by
  intro faces
  induction faces with
  | nil =>
    intro st st1 fs h
    simp only [registerFaces, Except.ok.injEq, Prod.mk.injEq] at h
    obtain ⟨h1, -⟩ := h
    subst h1
    exact ⟨rfl, rfl⟩
  | cons f rest ih =>
    intro st st1 fs h
    unfold registerFaces at h
    by_cases hv : f.is_valid = true
    · rw [if_pos hv] at h
      cases hset : set_face st f with
      | error e => rw [hset] at h; exact absurd h (by simp)
      | ok pr =>
        obtain ⟨f1, stA⟩ := pr
        rw [hset] at h
        dsimp only [] at h
        cases hrest : registerFaces stA rest with
        | error e => rw [hrest] at h; exact absurd h (by simp)
        | ok tr =>
          obtain ⟨stB, fsB⟩ := tr
          rw [hrest] at h
          dsimp only [] at h
          simp only [Except.ok.injEq, Prod.mk.injEq] at h
          obtain ⟨h1, -⟩ := h
          subst h1
          obtain ⟨oA, pA, -, -⟩ := set_face_state st f f1 stA hset
          obtain ⟨oB, pB⟩ := ih stA stB fsB hrest
          exact ⟨oB.trans oA, pB.trans pA⟩
    · rw [if_neg hv] at h
      cases hrest : registerFaces st rest with
      | error e => rw [hrest] at h; exact absurd h (by simp)
      | ok tr =>
        obtain ⟨stB, fsB⟩ := tr
        rw [hrest] at h
        dsimp only [] at h
        simp only [Except.ok.injEq, Prod.mk.injEq] at h
        obtain ⟨h1, -⟩ := h
        subst h1
        exact ih st stB fsB hrest

/-- A successful `create_initial_simplex` only removes outside indices. -/
theorem create_simplex_out (st : HullState) (faceIndex : Nat) (st1 : HullState)
    (counter1 : Nat) (h : create_initial_simplex st faceIndex = .ok (st1, counter1)) :
    st1.outsidePts ⊆ st.outsidePts := by
  simp only [create_initial_simplex] at h
  by_cases hn : st.pts.length < 4
  · rw [if_pos hn] at h
    exact absurd h (by simp)
  · rw [if_neg hn] at h
    split at h
    · exact absurd h (by simp)
    · split at h
      · exact absurd h (by simp)
      · rename_i hreg
        simp only [Except.ok.injEq, Prod.mk.injEq] at h
        obtain ⟨h1, -⟩ := h
        subst h1
        intro a ha
        have ha2 := prune_subset _ _ _ ha
        obtain ⟨o1, -⟩ := registerFaces_state _ _ _ _ hreg
        rw [o1] at ha2
        exact ha2

/-- Across the whole main loop the outside set only shrinks. -/
theorem computeLoop_out :
    ∀ (fuel counter : Nat) (q : List Nat) (st st1 : HullState) (counter1 : Nat),
      computeLoop fuel counter q st = .ok (st1, counter1) →
      st1.outsidePts ⊆ st.outsidePts := by
  intro fuel
  induction fuel with
  | zero =>
    intro counter q st st1 counter1 h
    simp only [computeLoop, Except.ok.injEq, Prod.mk.injEq] at h
    obtain ⟨h1, -⟩ := h
    subst h1
    exact fun a ha => ha
  | succ fuel ih =>
    intro counter q st st1 counter1 h
    match q with
    | [] =>
      simp only [computeLoop, Except.ok.injEq, Prod.mk.injEq] at h
      obtain ⟨h1, -⟩ := h
      subst h1
      exact fun a ha => ha
    | fi :: rest =>
      unfold computeLoop at h
      cases hface : get_face st fi with
      | none =>
        rw [hface] at h
        exact ih counter rest st st1 counter1 h
      | some curFace =>
        rw [hface] at h
        dsimp only [] at h
        cases hfar : get_farthest_sq st.pts st.outsidePts curFace with
        | none =>
          rw [hfar] at h
          exact ih counter rest st st1 counter1 h
        | some pr =>
          obtain ⟨fpi, farPt⟩ := pr
          rw [hfar] at h
          dsimp only [] at h
          cases hadd : addNewFaces
              (flood st.pts farPt (3 * st.faces.length + 3) [fi] st [] []).2.2 counter fpi
              (flood st.pts farPt (3 * st.faces.length + 3) [fi] st [] []).2.1 with
          | error e =>
            rw [hadd] at h
            exact absurd h (by simp)
          | ok tr =>
            obtain ⟨newFaces, c1, st2⟩ := tr
            rw [hadd] at h
            dsimp only [] at h
            have hsub := ih c1 _ _ st1 counter1 h
            intro a ha
            have ha2 := update_exterior_subset st2.pts newFaces
              (flood st.pts farPt (3 * st.faces.length + 3) [fi] st [] []).1
              st2.outsidePts (hsub ha)
            obtain ⟨o2, -⟩ := addNewFaces_state fpi _ _ counter newFaces c1 st2 hadd
            rw [o2, (flood_state st.pts farPt _ _ _ _ _).1] at ha2
            exact ha2

/-- C4: the Outside-Point Set shrinks monotonically across the whole
construction.  The constructor seeds it with exactly the indices
`0..n−1`; the initial-simplex prune and every `update_exterior_pts` call
only remove indices (each ends in an erase of collected indices, i.e. a
filter); a successful `create_initial_simplex` and the whole main loop
therefore only shrink the set, and an index once removed is never
re-added (no operation of the construction inserts into the set). -/
theorem C4_outside_monotone :
    (∀ pts : List Vec3, (init_state pts).outsidePts = List.range pts.length) ∧
    (∀ (pts : List Vec3) (simplex : List hull_face) (outs : List Nat),
      pruneOutside pts simplex outs ⊆ outs) ∧
    (∀ (pts : List Vec3) (newFaces poppedFaces : List hull_face) (outs : List Nat),
      update_exterior_pts pts newFaces poppedFaces outs ⊆ outs) ∧
    (∀ (st : HullState) (faceIndex : Nat) (st1 : HullState) (counter1 : Nat),
      create_initial_simplex st faceIndex = .ok (st1, counter1) →
      st1.outsidePts ⊆ st.outsidePts) ∧
    (∀ (fuel counter : Nat) (q : List Nat) (st st1 : HullState) (counter1 : Nat),
      computeLoop fuel counter q st = .ok (st1, counter1) →
      st1.outsidePts ⊆ st.outsidePts) :=
  ⟨fun _ => rfl, prune_subset, update_exterior_subset, create_simplex_out, computeLoop_out⟩

/-- Concrete instance of `C4_outside_monotone`: the whole tetrahedron main
loop only shrinks the outside set left by the initial simplex. -/
theorem C4_outside_monotone_w :
    (okStateOf (computeLoop 40 4 [0, 1, 2, 3] tetraSimplexState)).outsidePts ⊆
      tetraSimplexState.outsidePts :=
  C4_outside_monotone.2.2.2.2 40 4 [0, 1, 2, 3] tetraSimplexState
    (okStateOf (computeLoop 40 4 [0, 1, 2, 3] tetraSimplexState))
    (okCtrOf (computeLoop 40 4 [0, 1, 2, 3] tetraSimplexState)) (by rfl)

/-- Every in-order index pair below 6 occurs in the flattened pair loop. -/
theorem mem_boundPairIdx (i j : Nat) (hij : i < j) (hj : j < 6) : (i, j) ∈ boundPairIdx := by
  interval_cases j <;> interval_cases i <;> simp [boundPairIdx]

/-- Every listed pair is in order and below 6. -/
theorem boundPairIdx_lt : ∀ ij ∈ boundPairIdx, ij.1 < ij.2 ∧ ij.2 < 6 := by decide

/-- Invariant of the pair scan of `stepA`: the accumulator is either still
the start value with all processed squared distances at most `-1`
(vacuously, since distances are nonnegative — the case only occurs for an
empty processed list) or holds a processed pair attaining the running
maximum. -/
theorem stepAInv_fold (pts : List Vec3) :
    ∀ (l P : List (Nat × Nat)) (acc : Nat × Nat × ℚ),
      ((acc = (UNSET_IDX, UNSET_IDX, -1) ∧ ∀ kl ∈ P, dA pts kl ≤ -1) ∨
        (∃ ij ∈ P, acc = (bsAt pts ij.1, bsAt pts ij.2, dA pts ij) ∧
          ∀ kl ∈ P, dA pts kl ≤ acc.2.2)) →
      ((l.foldl (stepAStep pts) acc = (UNSET_IDX, UNSET_IDX, -1) ∧
          ∀ kl ∈ P ++ l, dA pts kl ≤ -1) ∨
        (∃ ij ∈ P ++ l, l.foldl (stepAStep pts) acc =
            (bsAt pts ij.1, bsAt pts ij.2, dA pts ij) ∧
          ∀ kl ∈ P ++ l, dA pts kl ≤ (l.foldl (stepAStep pts) acc).2.2)) := by
  intro l
  induction l with
  | nil => intro P acc h; simpa using h
  | cons ij rest ih =>
    intro P acc h
    have hstep : ((stepAStep pts acc ij = (UNSET_IDX, UNSET_IDX, -1) ∧
        ∀ kl ∈ P ++ [ij], dA pts kl ≤ -1) ∨
        (∃ ij2 ∈ P ++ [ij], stepAStep pts acc ij =
            (bsAt pts ij2.1, bsAt pts ij2.2, dA pts ij2) ∧
          ∀ kl ∈ P ++ [ij], dA pts kl ≤ (stepAStep pts acc ij).2.2)) := by
      unfold stepAStep
      rcases h with ⟨rfl, hall⟩ | ⟨ij0, hij0, rfl, hall⟩
      · by_cases hlt : ((UNSET_IDX, UNSET_IDX, (-1 : ℚ)) : Nat × Nat × ℚ).2.2 < dA pts ij
        · rw [if_pos hlt]
          right
          refine ⟨ij, by simp, rfl, ?_⟩
          intro kl hkl
          rcases List.mem_append.mp hkl with hkl | hkl
          · have h1 := hall kl hkl
            simp only at hlt ⊢
            linarith
          · simp only [List.mem_singleton] at hkl
            subst hkl
            simp only [le_refl]
        · rw [if_neg hlt]
          left
          refine ⟨rfl, ?_⟩
          intro kl hkl
          rcases List.mem_append.mp hkl with hkl | hkl
          · exact hall kl hkl
          · simp only [List.mem_singleton] at hkl
            subst hkl
            simpa using le_of_not_lt hlt
      · by_cases hlt : ((bsAt pts ij0.1, bsAt pts ij0.2, dA pts ij0) : Nat × Nat × ℚ).2.2 <
            dA pts ij
        · rw [if_pos hlt]
          right
          refine ⟨ij, by simp, rfl, ?_⟩
          intro kl hkl
          rcases List.mem_append.mp hkl with hkl | hkl
          · have h1 := hall kl hkl
            simp only at hlt h1 ⊢
            linarith
          · simp only [List.mem_singleton] at hkl
            subst hkl
            simp only [le_refl]
        · rw [if_neg hlt]
          right
          refine ⟨ij0, by simp [hij0], rfl, ?_⟩
          intro kl hkl
          rcases List.mem_append.mp hkl with hkl | hkl
          · exact hall kl hkl
          · simp only [List.mem_singleton] at hkl
            subst hkl
            exact le_of_not_lt hlt
    have := ih (P ++ [ij]) (stepAStep pts acc ij) hstep
    simpa using this

/-- C8: with more than 4 input points, `stepA` (vertex-0/1 selection)
fails with the degenerate-input error exactly when every pair of the six
axis-aligned extremal points has squared distance ≤ 0, and on success it
returns a pair of extremal points whose squared distance is maximal over
all such pairs (and strictly positive). -/
theorem C8_pair_selection (pts : List Vec3) (h4 : 4 < pts.length) :
    (stepA pts = .error simplexErrMsg ↔
      ∀ i j, i < j → j < 6 → dA pts (i, j) ≤ 0) ∧
    (∀ b0 b1, stepA pts = .ok (b0, b1) →
      (∃ i j, i < j ∧ j < 6 ∧ b0 = bsAt pts i ∧ b1 = bsAt pts j) ∧
      0 < Vec3.len_sq ((ptAt pts b0).sub (ptAt pts b1)) ∧
      ∀ i j, i < j → j < 6 →
        dA pts (i, j) ≤ Vec3.len_sq ((ptAt pts b0).sub (ptAt pts b1))) := by
  have hInv := stepAInv_fold pts boundPairIdx [] (UNSET_IDX, UNSET_IDX, -1)
    (Or.inl ⟨rfl, by simp⟩)
  simp only [List.nil_append] at hInv
  constructor
  · constructor
    · intro herr i j hij hj
      unfold stepA at herr
      by_cases hle :
          (boundPairIdx.foldl (stepAStep pts) (UNSET_IDX, UNSET_IDX, -1)).2.2 ≤ 0
      · rcases hInv with ⟨hfold, hall⟩ | ⟨ij0, hmem, hfold, hall⟩
        · have := hall _ (mem_boundPairIdx i j hij hj)
          linarith
        · have := hall _ (mem_boundPairIdx i j hij hj)
          linarith
      · rw [if_neg hle] at herr
        exact absurd herr (by simp)
    · intro hall
      unfold stepA
      rcases hInv with ⟨hfold, hall2⟩ | ⟨ij0, hmem, hfold, hall2⟩
      · rw [hfold]
        norm_num
      · obtain ⟨hij, hj⟩ := boundPairIdx_lt ij0 hmem
        have hd : dA pts ij0 ≤ 0 := by
          have := hall ij0.1 ij0.2 hij hj
          simpa using this
        rw [hfold]
        simp only [hd, if_pos]
  · intro b0 b1 hok
    unfold stepA at hok
    by_cases hle :
        (boundPairIdx.foldl (stepAStep pts) (UNSET_IDX, UNSET_IDX, -1)).2.2 ≤ 0
    · rw [if_pos hle] at hok
      exact absurd hok (by simp)
    · rw [if_neg hle] at hok
      simp only [Except.ok.injEq, Prod.mk.injEq] at hok
      obtain ⟨hb0, hb1⟩ := hok
      rcases hInv with ⟨hfold, -⟩ | ⟨ij0, hmem, hfold, hall⟩
      · rw [hfold] at hle
        norm_num at hle
      · obtain ⟨hij, hj⟩ := boundPairIdx_lt ij0 hmem
        have hb0R : b0 = bsAt pts ij0.1 := by rw [← hb0, hfold]
        have hb1R : b1 = bsAt pts ij0.2 := by rw [← hb1, hfold]
        have hdd : Vec3.len_sq ((ptAt pts b0).sub (ptAt pts b1)) = dA pts ij0 := by
          rw [hb0R, hb1R]
          rfl
        have hmax : (boundPairIdx.foldl (stepAStep pts)
            (UNSET_IDX, UNSET_IDX, -1)).2.2 = dA pts ij0 := by rw [hfold]
        refine ⟨⟨ij0.1, ij0.2, hij, hj, hb0R, hb1R⟩, ?_, ?_⟩
        · rw [hdd, ← hmax]
          exact lt_of_not_le hle
        · intro i j hij2 hj2
          have := hall _ (mem_boundPairIdx i j hij2 hj2)
          rw [hdd, ← hmax]
          exact this

set_option maxRecDepth 4000 in
/-- Concrete instance of `C8_pair_selection`: for `fivePts` the selected
pair is `(1, 2)` (extremal slots for max-x and max-y), of maximal squared
distance among the extremal pairs. -/
theorem C8_pair_selection_w :
    (∃ i j, i < j ∧ j < 6 ∧ 1 = bsAt fivePts i ∧ 2 = bsAt fivePts j) ∧
    0 < Vec3.len_sq ((ptAt fivePts 1).sub (ptAt fivePts 2)) ∧
    (∀ i j, i < j → j < 6 →
      dA fivePts (i, j) ≤ Vec3.len_sq ((ptAt fivePts 1).sub (ptAt fivePts 2))) :=
  (C8_pair_selection fivePts (by decide)).2 1 2 rfl

/-- Orientation preserves the face id. -/
theorem orient_face_id (pts : List Vec3) (center : Vec3) (f : hull_face) :
    (orient_face pts center f).id = f.id := by
  simp only [orient_face]
  split
  · rfl
  · rfl

/-- Appending a strict upper bound keeps a list strictly increasing. -/
theorem pairwise_append_lt (l : List Nat) (c : Nat) (hpw : List.Pairwise (· < ·) l)
    (hlt : ∀ i ∈ l, i < c) : List.Pairwise (· < ·) (l ++ [c]) := by
  rw [List.pairwise_append]
  refine ⟨hpw, List.pairwise_singleton _ _, ?_⟩
  intro a ha b hb
  simp only [List.mem_singleton] at hb
  subst hb
  exact hlt a ha

/-- New faces take consecutive fresh ids from the counter: after a
successful `addNewFaces` the ghost list is still strictly increasing,
bounded by the advanced counter. -/
theorem addNewFaces_created (fpi : Nat) :
    ∀ (horizon : List IndexPair) (st : HullState) (counter : Nat)
      (nfs : List hull_face) (c1 : Nat) (st1 : HullState),
      addNewFaces st counter fpi horizon = .ok (nfs, c1, st1) →
      List.Pairwise (· < ·) st.created → (∀ i ∈ st.created, i < counter) →
      List.Pairwise (· < ·) st1.created ∧ (∀ i ∈ st1.created, i < c1) ∧ counter ≤ c1 := by
  intro horizon
  induction horizon with
  | nil =>
    intro st counter nfs c1 st1 h hpw hlt
    simp only [addNewFaces, Except.ok.injEq, Prod.mk.injEq] at h
    obtain ⟨-, h2, h3⟩ := h
    subst h2
    subst h3
    exact ⟨hpw, hlt, le_refl _⟩
  | cons he rest ih =>
    intro st counter nfs c1 st1 h hpw hlt
    unfold addNewFaces at h
    cases hset : set_face st (hull_face.mk counter fpi he.p he.q Vec3.unset) with
    | error e => rw [hset] at h; exact absurd h (by simp)
    | ok pr =>
      obtain ⟨f2, st2⟩ := pr
      rw [hset] at h
      dsimp only [] at h
      cases hrest : addNewFaces st2 (counter + 1) fpi rest with
      | error e => rw [hrest] at h; exact absurd h (by simp)
      | ok tr =>
        obtain ⟨nfs2, counter2, st3⟩ := tr
        rw [hrest] at h
        simp only [Except.ok.injEq, Prod.mk.injEq] at h
        obtain ⟨-, h2, h3⟩ := h
        subst h2
        subst h3
        obtain ⟨-, -, hcr, -⟩ := set_face_state st _ f2 st2 hset
        rw [orient_face_id] at hcr
        have hpw2 : List.Pairwise (· < ·) st2.created := by
          rw [hcr]
          exact pairwise_append_lt _ _ hpw hlt
        have hlt2 : ∀ i ∈ st2.created, i < counter + 1 := by
          rw [hcr]
          intro i hi
          rcases List.mem_append.mp hi with hi | hi
          · exact Nat.lt_succ_of_lt (hlt i hi)
          · simp only [List.mem_singleton] at hi
            subst hi
            exact Nat.lt_succ_self _
        obtain ⟨p1, p2, p3⟩ := ih st2 (counter + 1) nfs2 counter2 st3 hrest hpw2 hlt2
        exact ⟨p1, p2, le_trans (Nat.le_succ _) p3⟩

/-- Registering a list of faces with strictly increasing ids bounded
below by `c` and above by `d` keeps the ghost list strictly increasing
and bounded by `d`. -/
theorem registerFaces_created :
    ∀ (faces : List hull_face) (st st1 : HullState) (fs : List hull_face) (c d : Nat),
      registerFaces st faces = .ok (st1, fs) →
      List.Pairwise (· < ·) st.created → (∀ i ∈ st.created, i < c) →
      List.Pairwise (· < ·) (faces.map (fun f => f.id)) →
      (∀ f ∈ faces, c ≤ f.id ∧ f.id < d) → c ≤ d →
      List.Pairwise (· < ·) st1.created ∧ (∀ i ∈ st1.created, i < d) := by
  intro faces
  induction faces with
  | nil =>
    intro st st1 fs c d h hpw hlt _ _ hcd
    simp only [registerFaces, Except.ok.injEq, Prod.mk.injEq] at h
    obtain ⟨h1, -⟩ := h
    subst h1
    exact ⟨hpw, fun i hi => lt_of_lt_of_le (hlt i hi) hcd⟩
  | cons f rest ih =>
    intro st st1 fs c d h hpw hlt hids hbnd hcd
    unfold registerFaces at h
    have hfb := hbnd f (by simp)
    have hrestbnd : ∀ g ∈ rest, f.id + 1 ≤ g.id ∧ g.id < d := by
      intro g hg
      refine ⟨?_, (hbnd g (by simp [hg])).2⟩
      have h5 : f.id < g.id := by
        simpa using (List.pairwise_cons.mp hids).1 g.id (by simp; exact ⟨g, hg, rfl⟩)
      omega
    have hidrest : List.Pairwise (· < ·) (rest.map (fun f => f.id)) :=
      (List.pairwise_cons.mp hids).2
    by_cases hv : f.is_valid = true
    · rw [if_pos hv] at h
      cases hset : set_face st f with
      | error e => rw [hset] at h; exact absurd h (by simp)
      | ok pr =>
        obtain ⟨f1, stA⟩ := pr
        rw [hset] at h
        dsimp only [] at h
        cases hrest : registerFaces stA rest with
        | error e => rw [hrest] at h; exact absurd h (by simp)
        | ok tr =>
          obtain ⟨stB, fsB⟩ := tr
          rw [hrest] at h
          dsimp only [] at h
          simp only [Except.ok.injEq, Prod.mk.injEq] at h
          obtain ⟨h1, -⟩ := h
          subst h1
          obtain ⟨-, -, hcr, -⟩ := set_face_state st f f1 stA hset
          rw [orient_face_id] at hcr
          have hpwA : List.Pairwise (· < ·) stA.created := by
            rw [hcr]
            exact pairwise_append_lt _ _ hpw
              (fun i hi => lt_of_lt_of_le (hlt i hi) hfb.1)
          have hltA : ∀ i ∈ stA.created, i < f.id + 1 := by
            rw [hcr]
            intro i hi
            rcases List.mem_append.mp hi with hi | hi
            · exact Nat.lt_succ_of_lt (lt_of_lt_of_le (hlt i hi) hfb.1)
            · simp only [List.mem_singleton] at hi
              subst hi
              exact Nat.lt_succ_self _
          exact ih stA stB fsB (f.id + 1) d hrest hpwA hltA hidrest hrestbnd
            (Nat.succ_le_of_lt hfb.2)
    · rw [if_neg hv] at h
      cases hrest : registerFaces st rest with
      | error e => rw [hrest] at h; exact absurd h (by simp)
      | ok tr =>
        obtain ⟨stB, fsB⟩ := tr
        rw [hrest] at h
        dsimp only [] at h
        simp only [Except.ok.injEq, Prod.mk.injEq] at h
        obtain ⟨h1, -⟩ := h
        subst h1
        exact ih st stB fsB (f.id + 1) d hrest hpw
          (fun i hi => lt_of_lt_of_le (hlt i hi) (le_trans hfb.1 (Nat.le_succ _)))
          hidrest hrestbnd (Nat.succ_le_of_lt hfb.2)

/-- A successful `create_initial_simplex` leaves a strictly increasing
ghost list, bounded by the advanced counter (which is `faceIndex + 4`). -/
theorem create_simplex_created (st : HullState) (faceIndex : Nat) (st1 : HullState)
    (counter1 : Nat) (h : create_initial_simplex st faceIndex = .ok (st1, counter1))
    (hpw : List.Pairwise (· < ·) st.created) (hlt : ∀ i ∈ st.created, i < faceIndex) :
    List.Pairwise (· < ·) st1.created ∧ (∀ i ∈ st1.created, i < counter1) := by
  simp only [create_initial_simplex] at h
  by_cases hn : st.pts.length < 4
  · rw [if_pos hn] at h
    exact absurd h (by simp)
  · rw [if_neg hn] at h
    split at h
    · exact absurd h (by simp)
    · split at h
      · exact absurd h (by simp)
      · rename_i b0 b1 b2 b3 hbest st2 oriented hreg
        simp only [Except.ok.injEq, Prod.mk.injEq] at h
        obtain ⟨h1, h2⟩ := h
        subst h1
        subst h2
        have hres := registerFaces_created _ _ _ _ faceIndex (faceIndex + 4) hreg hpw hlt
          (by simp only [List.map_cons, List.map_nil]
              refine List.pairwise_cons.mpr ⟨?_, List.pairwise_cons.mpr ⟨?_,
                List.pairwise_cons.mpr ⟨?_, List.pairwise_singleton _ _⟩⟩⟩ <;>
                (intro x hx; simp at hx) <;> omega)
          (by intro f hf
              simp only [List.mem_cons, List.not_mem_nil, or_false] at hf
              rcases hf with rfl | rfl | rfl | rfl <;> constructor <;> simp <;> omega)
          (by omega)
        exact hres

/-- Across the main loop the ghost list of registered ids stays strictly
increasing: every new face receives an id strictly above every id
registered before. -/
theorem computeLoop_created :
    ∀ (fuel counter : Nat) (q : List Nat) (st st1 : HullState) (counter1 : Nat),
      computeLoop fuel counter q st = .ok (st1, counter1) →
      List.Pairwise (· < ·) st.created → (∀ i ∈ st.created, i < counter) →
      List.Pairwise (· < ·) st1.created := by
  intro fuel
  induction fuel with
  | zero =>
    intro counter q st st1 counter1 h hpw hlt
    simp only [computeLoop, Except.ok.injEq, Prod.mk.injEq] at h
    obtain ⟨h1, -⟩ := h
    subst h1
    exact hpw
  | succ fuel ih =>
    intro counter q st st1 counter1 h hpw hlt
    match q with
    | [] =>
      simp only [computeLoop, Except.ok.injEq, Prod.mk.injEq] at h
      obtain ⟨h1, -⟩ := h
      subst h1
      exact hpw
    | fi :: rest =>
      unfold computeLoop at h
      cases hface : get_face st fi with
      | none =>
        rw [hface] at h
        exact ih counter rest st st1 counter1 h hpw hlt
      | some curFace =>
        rw [hface] at h
        dsimp only [] at h
        cases hfar : get_farthest_sq st.pts st.outsidePts curFace with
        | none =>
          rw [hfar] at h
          exact ih counter rest st st1 counter1 h hpw hlt
        | some pr =>
          obtain ⟨fpi, farPt⟩ := pr
          rw [hfar] at h
          dsimp only [] at h
          cases hadd : addNewFaces
              (flood st.pts farPt (3 * st.faces.length + 3) [fi] st [] []).2.2 counter fpi
              (flood st.pts farPt (3 * st.faces.length + 3) [fi] st [] []).2.1 with
          | error e =>
            rw [hadd] at h
            exact absurd h (by simp)
          | ok tr =>
            obtain ⟨newFaces, c1, st2⟩ := tr
            rw [hadd] at h
            dsimp only [] at h
            have hflpw : List.Pairwise (· < ·)
                (flood st.pts farPt (3 * st.faces.length + 3) [fi] st [] []).2.2.created := by
              rw [(flood_state st.pts farPt _ _ _ _ _).2.2]
              exact hpw
            have hfllt : ∀ i ∈
                (flood st.pts farPt (3 * st.faces.length + 3) [fi] st [] []).2.2.created,
                i < counter := by
              rw [(flood_state st.pts farPt _ _ _ _ _).2.2]
              exact hlt
            obtain ⟨p1, p2, -⟩ := addNewFaces_created fpi _ _ counter newFaces c1 st2
              hadd hflpw hfllt
            exact ih c1 _ _ st1 counter1 h (by exact p1) (by exact p2)

set_option maxRecDepth 4000 in
/-- C10 (implicit): face ids are drawn from the single counter
`curFaceId`, which starts at 0 and only increments; over any successful
construction the ghost list of all ids ever registered (in registration
order) is strictly increasing, so every registered face's id strictly
exceeds all previously assigned ids, an id removed by `pop_face` is never
reused, and a stale queue id can only name the face it originally
named. -/
theorem C10_face_ids_fresh (fuel : Nat) (pts : List Vec3) (st : HullState)
    (h : convex_hull fuel pts = .ok st) :
    List.Pairwise (· < ·) st.created := by
  unfold convex_hull compute at h
  cases hcs : create_initial_simplex (init_state pts) 0 with
  | error e => rw [hcs] at h; exact absurd h (by simp)
  | ok pr =>
    obtain ⟨st1, counter⟩ := pr
    rw [hcs] at h
    dsimp only [] at h
    cases hcl : computeLoop fuel counter (st1.faces.map (fun kv => kv.1)) st1 with
    | error e => rw [hcl] at h; exact absurd h (by simp)
    | ok tr =>
      obtain ⟨st2, c2⟩ := tr
      rw [hcl] at h
      simp only [Except.ok.injEq] at h
      subst h
      have hinit : create_initial_simplex (init_state pts) 0 = .ok (st1, counter) := hcs
      have hsim := create_simplex_created (init_state pts) 0 st1 counter hinit
        List.Pairwise.nil (by intro i hi; simp [init_state] at hi)
      exact computeLoop_created fuel counter _ st1 st2 c2 hcl hsim.1 hsim.2

set_option maxRecDepth 4000 in
/-- Concrete instance of `C10_face_ids_fresh`: the tetrahedron run
registers ids `[0, 1, 2, 3]`, strictly increasing. -/
theorem C10_face_ids_fresh_w :
    List.Pairwise (· < ·) (stateOf (convex_hull 40 tetraPts)).created :=
  C10_face_ids_fresh 40 tetraPts (stateOf (convex_hull 40 tetraPts)) rfl

/-- Pointwise description of one bounds-scan step. -/
theorem boundsStep_getD (v : Vec3) (pi : Nat) (bs : List (Option ℚ × Nat)) (k : Nat)
    (hk : k < 6) :
    (boundsStep v pi bs).getD k (none, UNSET_IDX) =
      (if k % 2 = 0 then
        match (bs.getD k (none, UNSET_IDX)).1 with
        | none => (some (coordAt v (k / 2)), pi)
        | some e => if coordAt v (k / 2) < e then (some (coordAt v (k / 2)), pi)
          else bs.getD k (none, UNSET_IDX)
      else
        match (bs.getD k (none, UNSET_IDX)).1 with
        | none => (some (coordAt v (k / 2)), pi)
        | some e => if e < coordAt v (k / 2) then (some (coordAt v (k / 2)), pi)
          else bs.getD k (none, UNSET_IDX)) := by
  unfold boundsStep
  rw [List.getD_eq_getElem _ _ (by simpa using hk)]
  simp only [List.getElem_map, List.getElem_range]

/-- A bounds-scan step keeps every slot index below `n` when the new point
index is below `n`. -/
theorem boundsStep_bound (v : Vec3) (pi n : Nat) (hpi : pi < n)
    (bs : List (Option ℚ × Nat)) (k : Nat) (hk : k < 6)
    (hslot : (bs.getD k (none, UNSET_IDX)).2 < n) :
    ((boundsStep v pi bs).getD k (none, UNSET_IDX)).2 < n := by
  rw [boundsStep_getD v pi bs k hk]
  split
  · split
    · exact hpi
    · split
      · exact hpi
      · exact hslot
  · split
    · exact hpi
    · split
      · exact hpi
      · exact hslot

/-- The first bounds-scan step fills every slot with the first point. -/
theorem boundsStep_init (v : Vec3) (pi : Nat) (k : Nat) (hk : k < 6) :
    ((boundsStep v pi (List.replicate 6 (none, UNSET_IDX))).getD k
      (none, UNSET_IDX)).2 = pi := by
  rw [boundsStep_getD v pi _ k hk]
  rw [List.getD_eq_getElem _ _ (by simpa using hk), List.getElem_replicate]
  split
  · rfl
  · rfl

/-- The bounds scan keeps every slot index below `n`. -/
theorem boundsFold_bound (pts : List Vec3) (n : Nat) :
    ∀ (l : List Nat) (bs : List (Option ℚ × Nat)),
      (∀ pi ∈ l, pi < n) →
      (∀ k, k < 6 → (bs.getD k (none, UNSET_IDX)).2 < n) →
      ∀ k, k < 6 →
        ((l.foldl (fun bs pi => boundsStep (ptAt pts pi) pi bs) bs).getD k
          (none, UNSET_IDX)).2 < n := by
  intro l
  induction l with
  | nil => intro bs _ h k hk; exact h k hk
  | cons pi rest ih =>
    intro bs hl h k hk
    exact ih (boundsStep (ptAt pts pi) pi bs)
      (fun x hx => hl x (by simp [hx]))
      (fun k2 hk2 => boundsStep_bound _ _ _ (hl pi (by simp)) _ _ hk2 (h k2 hk2)) k hk

/-- The bounds scan preserves the slot count. -/
theorem boundsFold_length (pts : List Vec3) :
    ∀ (l : List Nat) (bs : List (Option ℚ × Nat)), bs.length = 6 →
      (l.foldl (fun bs pi => boundsStep (ptAt pts pi) pi bs) bs).length = 6 := by
  intro l
  induction l with
  | nil => intro bs h; exact h
  | cons pi rest ih =>
    intro bs h
    exact ih _ (by simp [boundsStep])

/-- With at least one input point every extremal slot holds a real point
index. -/
theorem bsAt_lt (pts : List Vec3) (hn : 0 < pts.length) (k : Nat) (hk : k < 6) :
    bsAt pts k < pts.length := by
  obtain ⟨m, hm⟩ : ∃ m, pts.length = m + 1 := ⟨pts.length - 1, by omega⟩
  unfold bsAt computeBounds
  have hfold : ∀ j, j < 6 →
      (((List.range pts.length).foldl (fun bs pi => boundsStep (ptAt pts pi) pi bs)
        (List.replicate 6 (none, UNSET_IDX))).getD j (none, UNSET_IDX)).2 <
        pts.length := by
    intro j hj
    rw [show List.range pts.length = 0 :: (List.range m).map Nat.succ from by
      rw [hm, List.range_succ_eq_map]]
    simp only [List.foldl_cons]
    refine boundsFold_bound pts pts.length _ _ ?_ ?_ j hj
    · intro pi hpi
      simp only [List.mem_map, List.mem_range] at hpi
      obtain ⟨a, ha, rfl⟩ := hpi
      omega
    · intro k2 hk2
      rw [boundsStep_init _ _ _ hk2]
      omega
  have hlen : ((List.range pts.length).foldl
      (fun bs pi => boundsStep (ptAt pts pi) pi bs)
      (List.replicate 6 (none, UNSET_IDX))).length = 6 :=
    boundsFold_length pts _ _ (by simp)
  rw [List.getD_eq_getElem _ _ (by rw [List.length_map, hlen]; exact hk)]
  rw [List.getElem_map]
  have := hfold k hk
  rwa [List.getD_eq_getElem _ _ (by rw [hlen]; exact hk)] at this

/-- Every failure of `stepA` carries the degenerate-input message. -/
theorem stepA_error_msg (pts : List Vec3) (e : String) (h : stepA pts = .error e) :
    e = simplexErrMsg := by
  simp only [stepA] at h
  split at h
  · simpa using h.symm
  · exact absurd h (by simp)

/-- Every failure of `stepB` carries the degenerate-input message. -/
theorem stepB_error_msg (pts : List Vec3) (b0 b1 : Nat) (e : String)
    (h : stepB pts b0 b1 = .error e) : e = simplexErrMsg := by
  simp only [stepB] at h
  split at h
  · simpa using h.symm
  · split at h
    · simpa using h.symm
    · exact absurd h (by simp)

/-- A successful `stepA` returns extremal-slot indices, hence real point
indices when the input is nonempty. -/
theorem stepA_ok_lt (pts : List Vec3) (b0 b1 : Nat) (hn : 0 < pts.length)
    (h : stepA pts = .ok (b0, b1)) : b0 < pts.length ∧ b1 < pts.length := by
  have hInv := stepAInv_fold pts boundPairIdx [] (UNSET_IDX, UNSET_IDX, -1)
    (Or.inl ⟨rfl, by simp⟩)
  simp only [List.nil_append] at hInv
  simp only [stepA] at h
  by_cases hle :
      (boundPairIdx.foldl (stepAStep pts) (UNSET_IDX, UNSET_IDX, -1)).2.2 ≤ 0
  · rw [if_pos hle] at h
    exact absurd h (by simp)
  · rw [if_neg hle] at h
    simp only [Except.ok.injEq, Prod.mk.injEq] at h
    obtain ⟨hb0, hb1⟩ := h
    rcases hInv with ⟨hfold, -⟩ | ⟨ij0, hmem, hfold, -⟩
    · rw [hfold] at hle
      norm_num at hle
    · obtain ⟨hij, hj⟩ := boundPairIdx_lt ij0 hmem
      constructor
      · rw [← hb0, hfold]
        exact bsAt_lt pts hn ij0.1 (lt_trans hij hj)
      · rw [← hb1, hfold]
        exact bsAt_lt pts hn ij0.2 hj

/-- The `stepB` scan either never accepts a candidate or holds a processed
(real) point index. -/
theorem stepBFold_lt (pts : List Vec3) (ref u : Vec3) (n : Nat) :
    ∀ (l : List Nat) (acc : Nat × ℚ),
      (∀ pi ∈ l, pi < n) → (acc = (UNSET_IDX, -1) ∨ acc.1 < n) →
      (l.foldl (stepBStep pts ref u) acc = (UNSET_IDX, -1) ∨
        (l.foldl (stepBStep pts ref u) acc).1 < n) := by
  intro l
  induction l with
  | nil => intro acc _ h; exact h
  | cons pi rest ih =>
    intro acc hl h
    refine ih (stepBStep pts ref u acc pi) (fun x hx => hl x (by simp [hx])) ?_
    simp only [stepBStep]
    split
    · exact Or.inr (hl pi (by simp))
    · exact h

/-- A successful `stepB` returns a real point index. -/
theorem stepB_ok_lt (pts : List Vec3) (b0 b1 b2 : Nat) (h : stepB pts b0 b1 = .ok b2) :
    b2 < pts.length := by
  simp only [stepB] at h
  split at h
  · exact absurd h (by simp)
  · by_cases hle :
        ((List.range pts.length).foldl (stepBStep pts (ptAt pts b0)
          ((ptAt pts b1).sub (ptAt pts b0))) (UNSET_IDX, -1)).2 ≤ 0
    · rw [if_pos hle] at h
      exact absurd h (by simp)
    · rw [if_neg hle] at h
      simp only [Except.ok.injEq] at h
      subst h
      rcases stepBFold_lt pts _ _ pts.length (List.range pts.length) (UNSET_IDX, -1)
          (fun pi hpi => List.mem_range.mp hpi) (Or.inl rfl) with hc | hc
      · rw [hc] at hle
        norm_num at hle
      · exact hc

/-- A scan over distances that are all `≤ 0` never raises the running
maximum above `0`. -/
theorem stepCFold_le (pts : List Vec3) (ref w : Vec3) :
    ∀ (l : List Nat) (acc : Nat × ℚ),
      (∀ pi ∈ l, |Vec3.dot w ((ptAt pts pi).sub ref)| ≤ 0) → acc.2 ≤ 0 →
      (l.foldl (stepCStep pts ref w) acc).2 ≤ 0 := by
  intro l
  induction l with
  | nil => intro acc _ h; exact h
  | cons pi rest ih =>
    intro acc hl h
    refine ih (stepCStep pts ref w acc pi) (fun x hx => hl x (by simp [hx])) ?_
    simp only [stepCStep]
    split
    · exact hl pi (by simp)
    · exact h

/-- Scalar triple product with three vectors orthogonal to a common
nonzero vector vanishes (all four vectors over exact rationals). -/
theorem triple_dot_zero (m u v w : Vec3) (hm : ¬(m.x = 0 ∧ m.y = 0 ∧ m.z = 0))
    (h1 : Vec3.dot m u = 0) (h2 : Vec3.dot m v = 0) (h3 : Vec3.dot m w = 0) :
    Vec3.dot (Vec3.cross u v) w = 0 := by
  have hx : m.x * Vec3.dot (Vec3.cross u v) w =
      Vec3.dot m u * (Vec3.cross v w).x + Vec3.dot m v * (Vec3.cross w u).x +
        Vec3.dot m w * (Vec3.cross u v).x := by
    simp only [Vec3.dot, Vec3.cross]
    ring
  have hy : m.y * Vec3.dot (Vec3.cross u v) w =
      Vec3.dot m u * (Vec3.cross v w).y + Vec3.dot m v * (Vec3.cross w u).y +
        Vec3.dot m w * (Vec3.cross u v).y := by
    simp only [Vec3.dot, Vec3.cross]
    ring
  have hz : m.z * Vec3.dot (Vec3.cross u v) w =
      Vec3.dot m u * (Vec3.cross v w).z + Vec3.dot m v * (Vec3.cross w u).z +
        Vec3.dot m w * (Vec3.cross u v).z := by
    simp only [Vec3.dot, Vec3.cross]
    ring
  rw [h1, h2, h3] at hx hy hz
  simp only [zero_mul, add_zero, zero_add] at hx hy hz
  by_cases hmx : m.x = 0
  · by_cases hmy : m.y = 0
    · have hmz : m.z ≠ 0 := fun hz0 => hm ⟨hmx, hmy, hz0⟩
      exact (mul_eq_zero.mp hz).resolve_left hmz
    · exact (mul_eq_zero.mp hy).resolve_left hmy
  · exact (mul_eq_zero.mp hx).resolve_left hmx

/-- Splitting a difference through a common base point. -/
theorem dot_sub_through (m a b o : Vec3) :
    Vec3.dot m (a.sub b) = Vec3.dot m (a.sub o) - Vec3.dot m (b.sub o) := by
  simp only [Vec3.dot, Vec3.sub]
  ring

/-- C3 (amended): a 5-point coplanar input fails construction with the
degenerate-input error — the very same error ("Failed to create the
initial simplex") that an input of fewer than 4 points produces, so the
two failures are not distinguishable by the caller. -/
theorem C3_coplanar_fails (fuel : Nat) (pts : List Vec3) (h5 : pts.length = 5)
    (hcop : CoplanarPts pts) : convex_hull fuel pts = .error simplexErrMsg := by
  obtain ⟨m, o, hm, hall⟩ := hcop
  have hn : 0 < pts.length := by omega
  have hch : chooseSimplexVertices pts = .error simplexErrMsg := by
    simp only [chooseSimplexVertices]
    rw [if_neg (by omega)]
    cases hA : stepA pts with
    | error e =>
      dsimp only []
      rw [stepA_error_msg pts e hA]
    | ok pr =>
      obtain ⟨b0, b1⟩ := pr
      dsimp only []
      cases hB : stepB pts b0 b1 with
      | error e =>
        dsimp only []
        rw [stepB_error_msg pts b0 b1 e hB]
      | ok b2 =>
        dsimp only []
        have hb0 := (stepA_ok_lt pts b0 b1 hn hA).1
        have hb1 := (stepA_ok_lt pts b0 b1 hn hA).2
        have hb2 := stepB_ok_lt pts b0 b1 b2 hB
        have hq0 : ∀ pi, pi < pts.length →
            |Vec3.dot (Vec3.cross ((ptAt pts b1).sub (ptAt pts b0))
              ((ptAt pts b2).sub (ptAt pts b0))) ((ptAt pts pi).sub (ptAt pts b0))| ≤ 0 := by
          intro pi hpi
          have hu1 : Vec3.dot m ((ptAt pts b1).sub (ptAt pts b0)) = 0 := by
            rw [dot_sub_through m _ _ o, hall b1 hb1, hall b0 hb0]
            ring
          have hu2 : Vec3.dot m ((ptAt pts b2).sub (ptAt pts b0)) = 0 := by
            rw [dot_sub_through m _ _ o, hall b2 hb2, hall b0 hb0]
            ring
          have hv : Vec3.dot m ((ptAt pts pi).sub (ptAt pts b0)) = 0 := by
            rw [dot_sub_through m _ _ o, hall pi hpi, hall b0 hb0]
            ring
          rw [triple_dot_zero m _ _ _ hm hu1 hu2 hv]
          simp
        simp only [stepC]
        by_cases hw : (Vec3.cross ((ptAt pts b1).sub (ptAt pts b0))
            ((ptAt pts b2).sub (ptAt pts b0))).len_sq = 0
        · rw [if_pos hw]
        · rw [if_neg hw]
          have hle := stepCFold_le pts (ptAt pts b0)
            (Vec3.cross ((ptAt pts b1).sub (ptAt pts b0))
              ((ptAt pts b2).sub (ptAt pts b0)))
            (List.range pts.length) (UNSET_IDX, -1)
            (fun pi hpi => hq0 pi (List.mem_range.mp hpi)) (by norm_num)
          rw [if_pos hle]
  have hcs : create_initial_simplex (init_state pts) 0 = .error simplexErrMsg := by
    simp only [create_initial_simplex]
    rw [if_neg (by simp only [init_state]; omega)]
    have hpts : (init_state pts).pts = pts := rfl
    rw [hpts, hch]
  unfold convex_hull compute
  rw [hcs]

/-- Concrete instance of `C3_coplanar_fails` at five points of the plane
z = 0. -/
theorem C3_coplanar_fails_w : convex_hull 7 cop5Pts = .error simplexErrMsg :=
  C3_coplanar_fails 7 cop5Pts (by decide)
    ⟨⟨0, 0, 1, true⟩, ⟨0, 0, 0, true⟩, by decide, by decide⟩
